import Mathlib

/-!
Verification development for the npx-import package (src/index.ts).

The program is embedded shallowly: external collaborators (the module
loader `_import` / `_importRelative`, the resolver `_resolve` /
`_resolveRelative`, the child-process executor `execaCommand`, the
`validate-npm-package-name` validator, and the process environment) are
fields of an `Env` record; the process-wide mutable state (the
`INSTALL_CACHE` object) together with a chronological log of external
calls forms a `Trace` that every step threads explicitly.  Throwing a JS
`Error` is modelled by the `err` constructor of `StepResult`, which keeps
the state reached at the moment of the throw, exactly as JS mutation
survives an exception.
-/

/-- JsModule objects returned by the loader are opaque; a numeric tag suffices. -/
abbrev JsModule := Nat

/-- Outcome stored in the process-wide INSTALL_CACHE: the INSTALLED_LOCALLY
sentinel, or the temp install directory string. -/
inductive CacheEntry where
  | installedLocally
  | installedAt (dir : String)
deriving DecidableEq, Repr

/-- The Package record built per specifier (src/index.ts lines 10-17).
`imported = none` models the NOT_IMPORTABLE sentinel.  The source field
`local` is spelled `isLocal` because `local` is a Lean keyword. -/
structure Package where
  name : String
  packageWithPath : String
  version : String
  path : String
  imported : Option JsModule
  isLocal : Bool
deriving DecidableEq, Repr

/-- External calls the orchestrator makes, recorded chronologically. -/
inductive Event where
  | probe (pkg : String)
  | exec (cmd : String)
  | importRel (dir : String) (pkg : String)
  | log (msg : String)
deriving DecidableEq, Repr

/-- Process-wide state: the INSTALL_CACHE (an insertion-ordered string-keyed
object) plus the chronological event log. -/
structure Trace where
  cache : List (String × CacheEntry)
  events : List Event
deriving DecidableEq, Repr

/-- Result of the validate-npm-package-name collaborator, as consumed by
parseAndValidate: valid for new packages, invalid because the name is a
core module, or invalid for another reason. -/
inductive NameValidation where
  | valid
  | coreModule
  | invalidName
deriving DecidableEq, Repr

/-- Result object of the execaCommand collaborator. -/
structure ExecResult where
  failed : Bool
  stdout : String
deriving DecidableEq, Repr

/-- External collaborators.  A `.error msg` from `exec` or `importRelative`
models the returned promise rejecting with an Error whose message is `msg`. -/
structure Env where
  validate : String → NameValidation
  tryImportLocal : String → Option JsModule
  exec : String → Except String ExecResult
  importRelative : String → String → Except String JsModule
  resolveLocal : String → String
  resolveRelative : String → String → String
  userAgent : Option String
  execPath : Option String
  mainModulePath : Option String

/-- Errors thrown by the program, tagged by throw site, carrying the data
interpolated into the thrown message. -/
inductive NpxError where
  | invalidSpecifier (p : String)
  | parseFailure (p : String)
  | coreModuleNotImportable (name p : String)
  | invalidPackageName (name p : String)
  | duplicatePackage (p name : String)
  | toolUnavailable (cmd : String)
  | toolVersionTooOld (version cmd : String)
  | installFailed (names : List String) (cmd : String)
  | tempDirNotFound (paths : List String)
  | unexpectedInstallLayout (tempPath : String)
  | externalFailure (msg : String)
  | orchestrationFailed (pkgWithPaths : List String) (inner : String)
      (names : List String) (instructions : String)
  | resolveBeforeImport (pkg : String)
deriving DecidableEq, Repr

/-- Outcome of one step of the program: a value or a thrown error, in both
cases together with the state reached. -/
inductive StepResult (α : Type) where
  | ok (a : α) (t : Trace)
  | err (e : NpxError) (t : Trace)
deriving DecidableEq, Repr

/-- Append an external-call event to the log. -/
def addEvent (σ : Trace) (ev : Event) : Trace :=
  { σ with events := σ.events ++ [ev] }

/-- JS object assignment on the cache: overwrite in place if the key exists,
append otherwise. -/
def cacheInsert : List (String × CacheEntry) → String → CacheEntry → List (String × CacheEntry)
  | [], k, v => [(k, v)]
  | (k', v') :: rest, k, v =>
    if k' = k then (k', v) :: rest else (k', v') :: cacheInsert rest k v

/-- JS object read on the cache. -/
def cacheLookup : List (String × CacheEntry) → String → Option CacheEntry
  | [], _ => none
  | (k, v) :: rest, name => if k = name then some v else cacheLookup rest name

/-- Split a character list at the first occurrence of a stop character. -/
def takeWhileNot (stop : List Char) : List Char → List Char × List Char
  | [] => ([], [])
  | c :: cs =>
    if c ∈ stop then ([], c :: cs)
    else
      let r := takeWhileNot stop cs
      (c :: r.1, r.2)

/-- Modelled from the spec: tail of the parse-package-name grammar shared by
scoped and bare names — an optional `@version-or-tag` (no slash, nonempty,
defaulting to `latest` when absent) followed by an optional `/subpath`. -/
def parseTail (name : String) (rest : List Char) : Option (String × String × String) :=
  match rest with
  | [] => some (name, "latest", "")
  | c :: cs =>
    if c = '/' then some (name, "latest", String.mk (c :: cs))
    else if c = '@' then
      let r := takeWhileNot ['/'] cs
      if r.1 = [] then none
      else some (name, String.mk r.1, String.mk r.2)
    else none

/-- Modelled from the spec: the parse-package-name collaborator, parsing a
raw specifier into (name, versionOrTag, subpath) using the standard npm
specifier grammar — scoped names `@scope/name`, optional `@version-or-tag`,
optional trailing `/subpath`; `none` models the parser throwing. -/
def parsePkg (p : String) : Option (String × String × String) :=
  match p.data with
  | [] => none
  | c :: cs =>
    if c = '@' then
      let s := takeWhileNot ['/'] cs
      if s.1 = [] then none
      else
        match s.2 with
        | [] => none
        | d :: cs2 =>
          if d = '/' then
            let q := takeWhileNot ['@', '/'] cs2
            if q.1 = [] then none
            else parseTail ("@" ++ String.mk s.1 ++ "/" ++ String.mk q.1) q.2
          else none
    else
      let n := takeWhileNot ['@', '/'] (c :: cs)
      if n.1 = [] then none else parseTail (String.mk n.1) n.2

/-- Prefix test on character lists. -/
def listIsPre : List Char → List Char → Bool
  | [], _ => true
  | _ :: _, [] => false
  | a :: as, b :: bs => a = b && listIsPre as bs

/-- Substring test on character lists. -/
def listHasSub : List Char → List Char → Bool
  | [], needle => needle.isEmpty
  | h :: t, needle => listIsPre needle (h :: t) || listHasSub t needle

/-- Substring test on strings, modelling a JS regex match of a literal
pattern against a string. -/
def containsSub (s pat : String) : Bool := listHasSub s.data pat.data

/-- Starts-with test on strings, structurally on the character data. -/
def strStartsWith (s pre : String) : Bool := listIsPre pre.data s.data

/-- Ends-with test on strings, structurally on the character data. -/
def strEndsWith (s suf : String) : Bool := listIsPre suf.data.reverse s.data.reverse

/-- Test of the relative-path regex of parseAndValidate: does the specifier
start with a dot or a slash. -/
def startsDotSlash (p : String) : Bool :=
  match p.data with
  | c :: _ => c = '.' || c = '/'
  | [] => false

/-- JS String.split with a single-character separator, on character data. -/
def splitOnChar (sep : Char) : List Char → List (List Char)
  | [] => [[]]
  | c :: cs =>
    let r := splitOnChar sep cs
    if c = sep then [] :: r
    else
      match r with
      | [] => [[c]]
      | h :: t => (c :: h) :: t

/-- JS String.split with a single-character separator. -/
def strSplitOnChar (sep : Char) (s : String) : List String :=
  (splitOnChar sep s.data).map String.mk

/-- Accumulating digit parser for version components. -/
def natOfDigitsAux : List Char → Nat → Option Nat
  | [], acc => some acc
  | c :: cs, acc =>
    if 48 ≤ c.toNat && c.toNat ≤ 57 then natOfDigitsAux cs (acc * 10 + (c.toNat - 48))
    else none

/-- Numeric value of a nonempty all-digit character list. -/
def natOfChars : List Char → Option Nat
  | [] => none
  | cs => natOfDigitsAux cs 0

/-- Modelled from the spec: semantic-version components, numeric fields
split on dots. -/
def vnums (v : String) : List Nat :=
  (strSplitOnChar '.' v).map (fun s => (natOfChars s.data).getD 0)

/-- Lexicographic greater-or-equal on version component lists. -/
def verGeList : List Nat → List Nat → Bool
  | _, [] => true
  | [], _ :: _ => false
  | a :: as, b :: bs => if b < a then true else if a < b then false else verGeList as bs

/-- Modelled from the spec: the semver collaborator's gte comparison. -/
def semverGte (a b : String) : Bool := verGeList (vnums a) (vnums b)

/-- The literal pattern of the temp-cache regex in installAndReturnDir. -/
def npxPat : String := "/.npm/_npx/"

/-- JS Array.join with a separator string. -/
def strIntercalate (sep : String) : List String → String
  | [] => ""
  | [a] => a
  | a :: rest => a ++ sep ++ strIntercalate sep rest

/-- Modelled from the spec: Node's path.resolve(p, "..") on a normalized
absolute path — drop the last path component. -/
def parentDir (p : String) : String :=
  strIntercalate "/" (strSplitOnChar '/' p).dropLast

/-- JSON string escaping, modelling JSON.stringify on one string. -/
def jsonEscChar (c : Char) : String :=
  if c = '"' then "\\\"" else if c = '\\' then "\\\\"
  else if c = '\n' then "\\n" else String.mk [c]

/-- JSON rendering of one string. -/
def jsonStr (s : String) : String :=
  "\"" ++ String.join (s.data.map jsonEscChar) ++ "\""

/-- JSON rendering of an array of strings, as JSON.stringify produces. -/
def jsonArr (l : List String) : String :=
  "[" ++ strIntercalate "," (l.map jsonStr) ++ "]"

/-- Detected host package manager. -/
inductive PM where
  | npm
  | pnpm
  | yarn
deriving DecidableEq, Repr

/-- Main-module-path heuristic of getPackageManager (third fallback). -/
def getPMFromMain (env : Env) : PM :=
  match env.mainModulePath with
  | some mp =>
    if containsSub mp "/pnpm/" || containsSub mp "/.pnpm/" then .pnpm
    else if containsSub mp "/yarn/" || containsSub mp "/.yarn/" then .yarn
    else .npm
  | none => .npm

/-- npm_execpath heuristic of getPackageManager (second fallback). -/
def getPMFromExecPath (env : Env) : PM :=
  match env.execPath with
  | some ep =>
    if strEndsWith ep "npx-cli.js" || strEndsWith ep "npm-cli.js" then .npm
    else if strEndsWith ep "yarn" then .yarn
    else getPMFromMain env
  | none => getPMFromMain env

/-- getPackageManager (src/index.ts lines 188-209): user-agent sniffing with
fallbacks to npm_execpath and the main module path, defaulting to npm. -/
def getPackageManager (env : Env) : PM :=
  match env.userAgent with
  | some ua =>
    if strStartsWith ua "pnpm" then .pnpm
    else if strStartsWith ua "yarn" then .yarn
    else if strStartsWith ua "npm" then .npm
    else getPMFromExecPath env
  | none => getPMFromExecPath env

/-- Character test of the quoting regex in formatForCLI. -/
def hasCliSpecial (s : String) : Bool :=
  s.data.any (fun c => c = '<' || c = '>' || c = '*')

/-- formatForCLI (src/index.ts lines 212-215): `name@version`, wrapped in
single quotes when it contains a shell-special character. -/
def formatForCLI (p : Package) : String :=
  let unescaped := p.name ++ "@" ++ p.version
  if hasCliSpecial unescaped then "\x27" ++ unescaped ++ "\x27" else unescaped

/-- installInstructions (src/index.ts lines 179-186): the permanent-install
command suggestion for the detected package manager. -/
def installInstructions (env : Env) (packages : List Package) : String :=
  let joined := strIntercalate " " (packages.map formatForCLI)
  match getPackageManager env with
  | .npm => "npm install --save-dev " ++ joined
  | .pnpm => "pnpm add -D " ++ joined
  | .yarn => "yarn add -D " ++ joined

/-- The version-query command of checkNpxVersion. -/
def versionCmd : String := "npx --version"

/-- The PATH-emitting command appended to the install invocation. -/
def emitPathCmd : String := "node -e \x27console.log(process.env.PATH)\x27"

/-- The batch install command `npx -y -p spec1 -p spec2 ...` built by
installAndReturnDir (src/index.ts line 143). -/
def installCmdOf (packages : List Package) : String :=
  "npx -y " ++ strIntercalate " " (packages.map (fun p => "-p " ++ formatForCLI p))

/-- The full shell command executed by installAndReturnDir: the install
invocation chained with the PATH-emitting command. -/
def fullInstallCmd (packages : List Package) : String :=
  installCmdOf packages ++ " " ++ emitPathCmd

/-- Messages of the thrown errors, as interpolated at each throw site. -/
def NpxError.message : NpxError → String
  | .invalidSpecifier p =>
    "npx-import can only import packages, not relative paths: got " ++ p
  | .parseFailure p => "invalid package name: " ++ p
  | .coreModuleNotImportable name p =>
    "npx-import can only import NPM packages, got core module \x27" ++ name ++
      "\x27 from \x27" ++ p ++ "\x27"
  | .invalidPackageName name p =>
    "npx-import can\x27t import invalid package name: parsed name \x27" ++ name ++
      "\x27 from \x27" ++ p ++ "\x27"
  | .duplicatePackage p name =>
    "npx-import cannot import the same package twice! Got: \x27" ++ p ++
      "\x27 but already saw \x27" ++ name ++ "\x27 earlier!"
  | .toolUnavailable cmd =>
    "Couldn\x27t execute " ++ cmd ++ ". Is npm installed and up-to-date?"
  | .toolVersionTooOld version cmd =>
    "Require npm version 8+. Got \x27" ++ version ++ "\x27 when running \x27" ++ cmd ++ "\x27"
  | .installFailed names cmd =>
    "Failed installing " ++ strIntercalate "," names ++ " using: " ++ cmd ++ "."
  | .tempDirNotFound paths =>
    "Failed to find temporary install directory. Looking for paths matching \x27/.npm/_npx/\x27 in:\n" ++
      jsonArr paths
  | .unexpectedInstallLayout tempPath =>
    "Found NPX temporary path of \x27" ++ tempPath ++
      "\x27 but expected to be able to find a node_modules directory by looking in \x27..\x27."
  | .externalFailure msg => msg
  | .orchestrationFailed pkgWithPaths inner names instructions =>
    "npx-import failed for " ++ strIntercalate "," pkgWithPaths ++
      " with message:\n    " ++ inner ++ "\n\n" ++
      "You should install " ++ strIntercalate ", " names ++ " locally: \n    " ++
      instructions ++ "\n\n"
  | .resolveBeforeImport pkg =>
    "You must call npxImport for a package before calling npxResolve. Got: " ++ pkg

/-- parseAndValidate (src/index.ts lines 103-120): reject relative paths,
parse the specifier, validate the npm name. -/
def parseAndValidateE (env : Env) (p : String) : Except NpxError (String × String × String) :=
  if startsDotSlash p then .error (.invalidSpecifier p)
  else
    match parsePkg p with
    | none => .error (.parseFailure p)
    | some (name, version, path) =>
      match env.validate name with
      | .valid => .ok (name, version, path)
      | .coreModule => .error (.coreModuleNotImportable name p)
      | .invalidName => .error (.invalidPackageName name p)

/-- Loop body of checkPackagesAvailableLocally (src/index.ts lines 83-99):
validate each specifier, reject duplicate names, then probe it with the
local loader, recording the probe; the accumulator is the insertion-ordered
packages object. -/
def checkPackagesLoop (env : Env) (acc : List Package) :
    List String → Trace → StepResult (List Package)
  | [], σ => .ok acc σ
  | p :: rest, σ =>
    match parseAndValidateE env p with
    | .error e => .err e σ
    | .ok (name, version, path) =>
      if acc.any (fun a => a.name = name) then .err (.duplicatePackage p name) σ
      else
        let packageWithPath := name ++ path
        let imported := env.tryImportLocal packageWithPath
        checkPackagesLoop env
          (acc ++ [{ name := name, packageWithPath := packageWithPath, version := version,
                     path := path, imported := imported, isLocal := imported.isSome }])
          rest (addEvent σ (.probe packageWithPath))

/-- checkNpxVersion (src/index.ts lines 130-140): run `npx --version`, fail
if execution failed or the reported version is below 8.0.0. -/
def checkNpxVersion (env : Env) (σ : Trace) : StepResult Unit :=
  let σ1 := addEvent σ (.exec versionCmd)
  match env.exec versionCmd with
  | .error msg => .err (.externalFailure msg) σ1
  | .ok r =>
    if r.failed then .err (.toolUnavailable versionCmd) σ1
    else if !semverGte r.stdout "8.0.0" then .err (.toolVersionTooOld r.stdout versionCmd) σ1
    else .ok () σ1

/-- installAndReturnDir (src/index.ts lines 142-177): build the single batch
install invocation, run it chained with the PATH-emitting command, split the
emitted PATH on the separator, select the first segment matching the
temp-cache pattern, take its parent, and require the `node_modules` suffix. -/
def installAndReturnDir (env : Env) (packages : List Package) (σ : Trace) : StepResult String :=
  let installPackage := installCmdOf packages
  let σ1 := addEvent σ (.log ("Installing... (" ++ installPackage ++ ")"))
  let σ2 := addEvent σ1 (.exec (fullInstallCmd packages))
  match env.exec (fullInstallCmd packages) with
  | .error msg => .err (.externalFailure msg) σ2
  | .ok r =>
    if r.failed then
      .err (.installFailed (packages.map (fun p => p.name)) installPackage) σ2
    else
      let paths := strSplitOnChar ':' r.stdout
      match paths.find? (fun p => containsSub p npxPat) with
      | none => .err (.tempDirNotFound paths) σ2
      | some tempPath =>
        let nodeModulesPath := parentDir tempPath
        if !strEndsWith nodeModulesPath "node_modules" then
          .err (.unexpectedInstallLayout tempPath) σ2
        else
          let σ3 := addEvent σ2 (.log ("Installed into " ++ nodeModulesPath ++ "."))
          let σ4 := addEvent σ3
            (.log ("To skip this step in future, run: " ++ installInstructions env packages))
          .ok nodeModulesPath σ4

/-- Assignment `packages[pkg.name].imported = ...` on the packages object. -/
def updateImported (pkgs : List Package) (name : String) (m : JsModule) : List Package :=
  pkgs.map (fun q => if q.name = name then { q with imported := some m } else q)

/-- The per-missing-package import loop of npxImport (src/index.ts lines
43-46): import each missing package from the temp directory by
name-plus-subpath and record its cache entry, one package at a time. -/
def importMissing (env : Env) (installDir : String) (pkgs : List Package) :
    List Package → Trace → StepResult (List Package)
  | [], σ => .ok pkgs σ
  | p :: rest, σ =>
    let σ1 := addEvent σ (.importRel installDir p.packageWithPath)
    match env.importRelative installDir p.packageWithPath with
    | .error msg => .err (.externalFailure msg) σ1
    | .ok m =>
      let σ2 := { σ1 with cache := cacheInsert σ1.cache p.name (.installedAt installDir) }
      importMissing env installDir (updateImported pkgs p.name m) rest σ2

/-- The local-package cache loop of npxImport (src/index.ts lines 47-49). -/
def writeLocalCache (locals : List Package) (σ : Trace) : Trace :=
  { σ with cache := locals.foldl (fun c p => cacheInsert c p.name .installedLocally) σ.cache }

/-- Body of the try block of npxImport (src/index.ts lines 40-49): version
gate, batch install, per-package temp import, then the cache writes for the
local packages. -/
def installPhase (env : Env) (pkgs missing locals : List Package) (σ : Trace) :
    StepResult (List Package) :=
  match checkNpxVersion env σ with
  | .err e σ1 => .err e σ1
  | .ok _ σ1 =>
    match installAndReturnDir env missing σ1 with
    | .err e σ2 => .err e σ2
    | .ok installDir σ2 =>
      match importMissing env installDir pkgs missing σ2 with
      | .err e σ3 => .err e σ3
      | .ok pkgs2 σ3 => .ok pkgs2 (writeLocalCache locals σ3)

/-- Argument of npxImport: a single specifier string or an array. -/
inductive PkgArg where
  | single (s : String)
  | many (l : List String)
deriving DecidableEq, Repr

/-- The specifier list iterated by checkPackagesAvailableLocally. -/
def argList : PkgArg → List String
  | .single s => [s]
  | .many l => l

/-- Return value of npxImport: one module object, or an array of them. -/
inductive ImportResult where
  | one (m : Option JsModule)
  | many (ms : List (Option JsModule))
deriving DecidableEq, Repr

/-- Placeholder Package for the unreachable empty-list head access in the
singular log message. -/
def dummyPkg : Package :=
  { name := "", packageWithPath := "", version := "", path := "",
    imported := none, isLocal := false }

/-- The summary log line of npxImport for the missing set (src/index.ts
lines 33-39). -/
def missingMsg (missing : List Package) : String :=
  (if missing.length > 1 then
    "Packages " ++ strIntercalate ", " (missing.map (fun p => p.packageWithPath))
   else (missing.headD dummyPkg).packageWithPath) ++
  " not available locally. Attempting to use npx to install temporarily."

/-- Final shaping of npxImport (src/index.ts lines 62-64): an array argument
yields the array of imported modules, a single argument yields its first
element. -/
def wrapResult (arg : PkgArg) (pkgs : List Package) : ImportResult :=
  let results := pkgs.map (fun p => p.imported)
  match arg with
  | .single _ => .one (results.headD none)
  | .many _ => .many results

/-- npxImport (src/index.ts lines 23-65): validate and probe all
specifiers, and when at least one is missing run the install phase inside a
try block whose catch rethrows the single composite error. -/
def npxImport (env : Env) (arg : PkgArg) (σ : Trace) : StepResult ImportResult :=
  match checkPackagesLoop env [] (argList arg) σ with
  | .err e σ1 => .err e σ1
  | .ok pkgs σ1 =>
    if (pkgs.filter fun p => p.imported.isNone).length > 0 then
      match installPhase env pkgs (pkgs.filter fun p => p.imported.isNone)
          (pkgs.filter fun p => p.imported.isSome)
          (addEvent σ1 (.log (missingMsg (pkgs.filter fun p => p.imported.isNone)))) with
      | .ok finalPkgs σ3 => .ok (wrapResult arg finalPkgs) σ3
      | .err e σ3 =>
        .err (.orchestrationFailed
          ((pkgs.filter fun p => p.imported.isNone).map fun p => p.packageWithPath)
          e.message ((pkgs.filter fun p => p.imported.isNone).map fun p => p.name)
          (installInstructions env (pkgs.filter fun p => p.imported.isNone))) σ3
    else .ok (wrapResult arg pkgs) σ1

/-- npxResolve (src/index.ts lines 67-78): parse the specifier, look its
name up in the cache; a falsy cached value throws ResolveBeforeImport, the
INSTALLED_LOCALLY sentinel resolves via the local resolver, a directory
resolves relative to it. -/
def npxResolve (cache : List (String × CacheEntry)) (env : Env) (pkg : String) :
    Except NpxError String :=
  match parsePkg pkg with
  | none => .error (.parseFailure pkg)
  | some (name, _, path) =>
    let packageWithPath := name ++ path
    match cacheLookup cache name with
    | none => .error (.resolveBeforeImport pkg)
    | some .installedLocally => .ok (env.resolveLocal packageWithPath)
    | some (.installedAt dir) =>
      if dir = "" then .error (.resolveBeforeImport pkg)
      else .ok (env.resolveRelative dir packageWithPath)

/-- Parse-and-validate outcome collapsed to a Bool: does the specifier pass
validation against this environment. -/
def specOk (env : Env) (q : String) : Bool :=
  match parseAndValidateE env q with
  | .ok _ => true
  | .error _ => false

/-- The (name, versionOrTag, subpath) triple of a specifier that passes
validation; a junk triple otherwise. -/
def specParts (env : Env) (q : String) : String × String × String :=
  match parseAndValidateE env q with
  | .ok t => t
  | .error _ => ("", "", "")

/-- Parsed name of a specifier. -/
def specName (env : Env) (q : String) : String := (specParts env q).1

/-- The name-plus-subpath string a specifier is probed and imported with. -/
def specProbe (env : Env) (q : String) : String :=
  (specParts env q).1 ++ (specParts env q).2.2

/-- The Package record the probing loop builds for one specifier. -/
def mkPkg (env : Env) (q : String) : Package :=
  { name := (specParts env q).1
    packageWithPath := specProbe env q
    version := (specParts env q).2.1
    path := (specParts env q).2.2
    imported := env.tryImportLocal (specProbe env q)
    isLocal := (env.tryImportLocal (specProbe env q)).isSome }

/-- State a step ends in, whether it returned or threw. -/
def finalTrace {α : Type} : StepResult α → Trace
  | .ok _ t => t
  | .err _ t => t

/-- Commands of the child-process invocations among a list of events. -/
def execCmds (evs : List Event) : List String :=
  evs.filterMap (fun ev => match ev with | .exec c => some c | _ => none)

/-- Errors thrown by the validation phase (the probing loop), as opposed to
install-phase errors. -/
def fromValidation : NpxError → Bool
  | .invalidSpecifier _ => true
  | .parseFailure _ => true
  | .coreModuleNotImportable _ _ => true
  | .invalidPackageName _ _ => true
  | .duplicatePackage _ _ => true
  | _ => false

/-- The four validation-error kinds named by the spec. -/
def isValidationError : NpxError → Bool
  | .invalidSpecifier _ => true
  | .coreModuleNotImportable _ _ => true
  | .invalidPackageName _ _ => true
  | .duplicatePackage _ _ => true
  | _ => false

/-- Substring containment, stated structurally. -/
def strContains (full sub : String) : Prop := ∃ a b : String, full = a ++ sub ++ b

theorem specOk_eq {env : Env} {q : String} (h : specOk env q = true) :
    parseAndValidateE env q = .ok (specParts env q) := by
  unfold specOk specParts at *
  cases hq : parseAndValidateE env q <;> simp [hq] at h ⊢

theorem trace_eta (σ : Trace) : { σ with events := σ.events ++ [] } = σ := by
  cases σ <;> simp

/-- Probe events recorded for a specifier list. -/
def probeEvents (env : Env) (l : List String) : List Event :=
  l.map (fun q => Event.probe (specProbe env q))


theorem mkPkg_eq {env : Env} {q n v pa : String} (hsp : specParts env q = (n, v, pa)) :
    mkPkg env q =
      { name := n, packageWithPath := n ++ pa, version := v, path := pa,
        imported := env.tryImportLocal (n ++ pa),
        isLocal := (env.tryImportLocal (n ++ pa)).isSome } := by
  simp [mkPkg, specProbe, hsp]

theorem checkLoop_ok_of_valid (env : Env) (l : List String) :
    ∀ (acc : List Package) (σ : Trace),
    (∀ q ∈ l, specOk env q = true) →
    (acc.map Package.name ++ l.map (specName env)).Nodup →
    checkPackagesLoop env acc l σ =
      .ok (acc ++ l.map (mkPkg env)) { σ with events := σ.events ++ probeEvents env l } := by
  induction l with
  | nil => intro acc σ _ _; simp [checkPackagesLoop, probeEvents, trace_eta]
  | cons p rest ih =>
    intro acc σ hvalid hnodup
    have hp := specOk_eq (hvalid p (by simp))
    rcases hsp : specParts env p with ⟨n, v, pa⟩
    rw [hsp] at hp
    have hname : specName env p = n := by simp [specName, hsp]
    have hdisj : (acc.map Package.name).Disjoint ((p :: rest).map (specName env)) :=
      List.disjoint_of_nodup_append hnodup
    have hany : (acc.any fun a => a.name = n) = false := by
      rw [List.any_eq_false]
      intro a ha
      simp only [decide_eq_true_eq]
      intro heq
      exact hdisj (List.mem_map_of_mem _ ha) (by simp [hname, ← heq])
    simp only [checkPackagesLoop, hp, hany, Bool.false_eq_true, if_false]
    rw [ih _ _ (fun q hq => hvalid q (by simp [hq])) ?_]
    · simp [List.map_cons, mkPkg_eq hsp, addEvent, probeEvents, specProbe, hsp,
        List.append_assoc]
    · simp only [List.map_append]
      simpa [List.append_assoc, hname] using hnodup

theorem checkLoop_ok_shape (env : Env) (l : List String) :
    ∀ (acc : List Package) (σ : Trace) (pkgs : List Package) (σ1 : Trace),
    checkPackagesLoop env acc l σ = .ok pkgs σ1 →
    pkgs = acc ++ l.map (mkPkg env) ∧
      σ1 = { σ with events := σ.events ++ probeEvents env l } := by
  induction l with
  | nil =>
    intro acc σ pkgs σ1 h
    simp [checkPackagesLoop] at h
    simp [h.1.symm, h.2.symm, probeEvents, trace_eta]
  | cons p rest ih =>
    intro acc σ pkgs σ1 h
    cases hpv : parseAndValidateE env p with
    | error e => simp [checkPackagesLoop, hpv] at h
    | ok t =>
      rcases t with ⟨n, v, pa⟩
      have hsp : specParts env p = (n, v, pa) := by simp [specParts, hpv]
      cases hany : (acc.any fun a => a.name = n) with
      | true => simp [checkPackagesLoop, hpv, hany] at h
      | false =>
        simp only [checkPackagesLoop, hpv, hany, Bool.false_eq_true, if_false] at h
        obtain ⟨h1, h2⟩ := ih _ _ _ _ h
        refine ⟨?_, ?_⟩
        · simp [h1, List.map_cons, mkPkg_eq hsp, List.append_assoc]
        · simp [h2, addEvent, probeEvents, specProbe, hsp, List.append_assoc]

theorem parseAndValidateE_err {env : Env} {p : String} {e : NpxError}
    (h : parseAndValidateE env p = .error e) : fromValidation e = true := by
  unfold parseAndValidateE at h
  split at h
  · cases h; rfl
  · split at h
    · cases h; rfl
    · split at h
      · exact absurd h (by simp)
      · cases h; rfl
      · cases h; rfl

theorem checkLoop_err_validation (env : Env) (l : List String) :
    ∀ (acc : List Package) (σ : Trace) (e : NpxError) (σ1 : Trace),
    checkPackagesLoop env acc l σ = .err e σ1 → fromValidation e = true := by
  induction l with
  | nil => intro acc σ e σ1 h; simp [checkPackagesLoop] at h
  | cons p rest ih =>
    intro acc σ e σ1 h
    cases hpv : parseAndValidateE env p with
    | error e' =>
      simp [checkPackagesLoop, hpv] at h
      rw [← h.1]
      exact parseAndValidateE_err hpv
    | ok t =>
      rcases t with ⟨n, v, pa⟩
      cases hany : (acc.any fun a => a.name = n) with
      | true =>
        simp [checkPackagesLoop, hpv, hany] at h
        rw [← h.1]; rfl
      | false =>
        simp only [checkPackagesLoop, hpv, hany, Bool.false_eq_true, if_false] at h
        exact ih _ _ _ _ h

theorem checkLoop_append (env : Env) (l1 l2 : List String) :
    ∀ (acc : List Package) (σ : Trace),
    checkPackagesLoop env acc (l1 ++ l2) σ =
      match checkPackagesLoop env acc l1 σ with
      | .ok a t => checkPackagesLoop env a l2 t
      | .err e t => .err e t := by
  induction l1 with
  | nil => intro acc σ; simp [checkPackagesLoop]
  | cons p rest ih =>
    intro acc σ
    cases hpv : parseAndValidateE env p with
    | error e => simp [checkPackagesLoop, hpv]
    | ok t =>
      rcases t with ⟨n, v, pa⟩
      cases hany : (acc.any fun a => a.name = n) with
      | true => simp [checkPackagesLoop, hpv, hany]
      | false =>
        simp only [List.cons_append, checkPackagesLoop, hpv, hany, Bool.false_eq_true,
          if_false]
        exact ih _ _

/-- C10: calling npxImport with an empty array returns an empty array and
ends in exactly the starting state — no validation, no probe, no
version-gate execution, no install invocation, and an unchanged cache,
since the final trace is the initial one. -/
theorem npxImport_empty_input (env : Env) (σ : Trace) :
    npxImport env (.many []) σ = .ok (.many []) σ := by
  simp [npxImport, argList, checkPackagesLoop, wrapResult]

/-- C2 counterexample: in a call where the second specifier fails validation
with InvalidSpecifier, the first specifier has already been probed — the
final event log of the failing call contains the probe of "a", so
validation errors do not abort the call before all probing. -/
theorem npxImport_validation_probe_cex :
    npxImport
      { validate := fun _ => .valid, tryImportLocal := fun _ => some 1,
        exec := fun _ => .error "x", importRelative := fun _ _ => .error "x",
        resolveLocal := fun s => s, resolveRelative := fun d s => d ++ "/" ++ s,
        userAgent := none, execPath := none, mainModulePath := none }
      (.many ["a", "./b"]) { cache := [], events := [] } =
      .err (.invalidSpecifier "./b") { cache := [], events := [.probe "a"] } ∧
    isValidationError (.invalidSpecifier "./b") = true := by
  constructor
  · rfl
  · rfl

/-- Concrete environment for witnesses: every probe succeeds, every name is
valid, and child processes reject. -/
def demoEnvLocal : Env :=
  { validate := fun _ => .valid, tryImportLocal := fun _ => some 1,
    exec := fun _ => .error "exec should not run", importRelative := fun _ _ => .error "x",
    resolveLocal := fun s => "local:" ++ s, resolveRelative := fun d s => d ++ "/" ++ s,
    userAgent := none, execPath := none, mainModulePath := none }

/-- C2 (amended): a validation error — the specifier failing
parse-and-validate itself (InvalidSpecifier, CoreModuleNotImportable,
InvalidPackageName), or parsing to a name already seen earlier in the list
(DuplicatePackageRequest) — aborts the call at the first offending
specifier: that specifier and all later ones are never probed, while each
valid specifier before it has already been probed by then; the cache is
untouched and the thrown error is the validation error itself. -/
theorem npxImport_validation_abort (env : Env) (σ : Trace) (pre post : List String)
    (p : String) (e : NpxError)
    (hpre : ∀ q ∈ pre, specOk env q = true)
    (hnodup : (pre.map (specName env)).Nodup)
    (hfail : parseAndValidateE env p = .error e ∨
      ∃ n vv pa, parseAndValidateE env p = .ok (n, vv, pa) ∧
        n ∈ pre.map (specName env) ∧ e = .duplicatePackage p n) :
    npxImport env (.many (pre ++ p :: post)) σ =
      .err e { σ with events := σ.events ++ probeEvents env pre } ∧
    fromValidation e = true := by
  rcases hfail with herr | ⟨n, vv, pa, hok, hmem, he⟩
  · constructor
    · unfold npxImport
      rw [show argList (.many (pre ++ p :: post)) = pre ++ p :: post from rfl,
        checkLoop_append,
        checkLoop_ok_of_valid env pre [] σ hpre (by simpa using hnodup)]
      simp only [checkPackagesLoop, herr]
    · exact parseAndValidateE_err herr
  · have hany : ((([] : List Package) ++ pre.map (mkPkg env)).any
        fun a => a.name = n) = true := by
      rw [List.any_eq_true]
      obtain ⟨q, hq, hqn⟩ := List.mem_map.mp hmem
      refine ⟨mkPkg env q, List.mem_append_right _ (List.mem_map_of_mem _ hq), ?_⟩
      simp only [decide_eq_true_eq]
      exact hqn
    constructor
    · unfold npxImport
      rw [show argList (.many (pre ++ p :: post)) = pre ++ p :: post from rfl,
        checkLoop_append,
        checkLoop_ok_of_valid env pre [] σ hpre (by simpa using hnodup)]
      simp only [checkPackagesLoop, hok, hany, if_true, he]
    · rw [he]; rfl

theorem npxImport_validation_abort_witness :
    (∀ q ∈ ["a"], specOk demoEnvLocal q = true) ∧
    (["a"].map (specName demoEnvLocal)).Nodup ∧
    parseAndValidateE demoEnvLocal "./b" = .error (.invalidSpecifier "./b") ∧
    parseAndValidateE demoEnvLocal "a@2.0.0" = .ok ("a", "2.0.0", "") ∧
    "a" ∈ ["a"].map (specName demoEnvLocal) ∧
    (npxImport demoEnvLocal (.many (["a"] ++ "./b" :: ["c"])) { cache := [], events := [] } =
      .err (.invalidSpecifier "./b")
        { cache := [], events := ([] : List Event) ++ probeEvents demoEnvLocal ["a"] } ∧
     fromValidation (.invalidSpecifier "./b") = true) ∧
    (npxImport demoEnvLocal (.many (["a"] ++ "a@2.0.0" :: ["c"]))
        { cache := [], events := [] } =
      .err (.duplicatePackage "a@2.0.0" "a")
        { cache := [], events := ([] : List Event) ++ probeEvents demoEnvLocal ["a"] } ∧
     fromValidation (.duplicatePackage "a@2.0.0" "a") = true) := by
  refine ⟨by decide, by decide, by rfl, by rfl, by decide, ?_, ?_⟩
  · exact npxImport_validation_abort demoEnvLocal { cache := [], events := [] } ["a"] ["c"]
      "./b" (.invalidSpecifier "./b") (by decide) (by decide) (Or.inl (by rfl))
  · exact npxImport_validation_abort demoEnvLocal { cache := [], events := [] } ["a"] ["c"]
      "a@2.0.0" (.duplicatePackage "a@2.0.0" "a") (by decide) (by decide)
      (Or.inr ⟨"a", "2.0.0", "", by rfl, by decide, rfl⟩)

/-- C1: in a call where every probed package is locally available, the
missing branch is skipped, so the final state carries the starting cache
unchanged — no entry is created for any of the probed packages — and
npxResolve against that cache throws ResolveBeforeImport for every name it
has no entry for. -/
theorem npxImport_all_local_cache (env : Env) (σ : Trace) (l : List String)
    (hvalid : ∀ q ∈ l, specOk env q = true)
    (hnodup : (l.map (specName env)).Nodup)
    (hloc : ∀ q ∈ l, (env.tryImportLocal (specProbe env q)).isSome = true) :
    (∃ r, npxImport env (.many l) σ =
        .ok r { σ with events := σ.events ++ probeEvents env l }) ∧
    (∀ q n v pa, parsePkg q = some (n, v, pa) → cacheLookup σ.cache n = none →
      npxResolve σ.cache env q = .error (.resolveBeforeImport q)) := by
  constructor
  · unfold npxImport
    rw [show argList (.many l) = l from rfl,
      checkLoop_ok_of_valid env l [] σ hvalid (by simpa using hnodup)]
    have hmiss : ((l.map (mkPkg env)).filter fun p => p.imported.isNone) = [] := by
      rw [List.filter_eq_nil]
      intro a ha
      obtain ⟨q, hq, rfl⟩ := List.mem_map.mp ha
      have := hloc q hq
      simp [mkPkg, Option.isNone_iff_eq_none]
      intro hnone
      rw [hnone] at this
      simp at this
    simp only [List.nil_append, hmiss, List.length_nil, gt_iff_lt, lt_self_iff_false,
      if_false]
    exact ⟨_, rfl⟩
  · intro q n v pa hparse hnone
    unfold npxResolve
    simp only [hparse, hnone]

theorem npxImport_all_local_cache_witness :
    (∀ q ∈ ["a", "b"], specOk demoEnvLocal q = true) ∧
    ((["a", "b"].map (specName demoEnvLocal)).Nodup) ∧
    (∀ q ∈ ["a", "b"],
      (demoEnvLocal.tryImportLocal (specProbe demoEnvLocal q)).isSome = true) ∧
    (∃ r, npxImport demoEnvLocal (.many ["a", "b"]) { cache := [], events := [] } =
      .ok r { cache := [],
              events := ([] : List Event) ++ probeEvents demoEnvLocal ["a", "b"] }) ∧
    npxResolve ([] : List (String × CacheEntry)) demoEnvLocal "zzz" =
      .error (.resolveBeforeImport "zzz") := by
  obtain ⟨h1, h2⟩ := npxImport_all_local_cache demoEnvLocal { cache := [], events := [] }
    ["a", "b"] (by decide) (by decide) (by decide)
  exact ⟨by decide, by decide, by decide, h1, h2 "zzz" "zzz" "latest" "" (by rfl) (by rfl)⟩

theorem updateImported_length (pkgs : List Package) (name : String) (m : JsModule) :
    (updateImported pkgs name m).length = pkgs.length := by
  simp [updateImported]

theorem importMissing_ok_length (env : Env) (d : String) (miss : List Package) :
    ∀ (pkgs pkgs2 : List Package) (σ σ2 : Trace),
    importMissing env d pkgs miss σ = .ok pkgs2 σ2 → pkgs2.length = pkgs.length := by
  induction miss with
  | nil =>
    intro pkgs pkgs2 σ σ2 h
    simp only [importMissing] at h
    cases h
    rfl
  | cons p rest ih =>
    intro pkgs pkgs2 σ σ2 h
    cases him : env.importRelative d p.packageWithPath with
    | error msg => simp [importMissing, him] at h
    | ok m =>
      simp only [importMissing, him] at h
      have := ih _ _ _ _ h
      simpa [updateImported_length] using this

theorem installPhase_ok_length (env : Env) (pkgs missing locals pkgs2 : List Package)
    (σ σ2 : Trace) (h : installPhase env pkgs missing locals σ = .ok pkgs2 σ2) :
    pkgs2.length = pkgs.length := by
  cases h1 : checkNpxVersion env σ with
  | err e t => simp [installPhase, h1] at h
  | ok u t =>
    simp only [installPhase, h1] at h
    cases h2 : installAndReturnDir env missing t with
    | err e t2 => simp [h2] at h
    | ok d t2 =>
      simp only [h2] at h
      cases h3 : importMissing env d pkgs missing t2 with
      | err e t3 => simp [h3] at h
      | ok p3 t3 =>
        simp only [h3] at h
        cases h
        exact importMissing_ok_length env d missing pkgs _ _ _ h3

theorem checkLoop_ok_nodup (env : Env) (l : List String) :
    ∀ (acc : List Package) (σ : Trace) (pkgs : List Package) (σ1 : Trace),
    checkPackagesLoop env acc l σ = .ok pkgs σ1 →
    (acc.map Package.name).Nodup → (pkgs.map Package.name).Nodup := by
  induction l with
  | nil =>
    intro acc σ pkgs σ1 h hacc
    simp only [checkPackagesLoop] at h
    cases h
    exact hacc
  | cons p rest ih =>
    intro acc σ pkgs σ1 h hacc
    cases hpv : parseAndValidateE env p with
    | error e => simp [checkPackagesLoop, hpv] at h
    | ok t =>
      rcases t with ⟨n, v, pa⟩
      cases hany : (acc.any fun a => a.name = n) with
      | true => simp [checkPackagesLoop, hpv, hany] at h
      | false =>
        simp only [checkPackagesLoop, hpv, hany, Bool.false_eq_true, if_false] at h
        have hn : n ∉ acc.map Package.name := by
          intro hmem
          obtain ⟨a, ha, hae⟩ := List.mem_map.mp hmem
          have := List.any_eq_false.mp hany a ha
          simp [hae] at this
        refine ih _ _ _ _ h ?_
        rw [List.map_append, List.nodup_append]
        refine ⟨hacc, by simp, ?_⟩
        intro x hx hx2
        simp only [List.map_cons, List.map_nil, List.mem_singleton] at hx2
        exact hn (hx2 ▸ hx)

theorem updateImported_get (pkgs : List Package) (nm : String) (m : JsModule)
    (i : Nat) (hi : i < pkgs.length) (hi2 : i < (updateImported pkgs nm m).length) :
    (updateImported pkgs nm m)[i] =
      if pkgs[i].name = nm then { pkgs[i] with imported := some m } else pkgs[i] := by
  simp [updateImported]

/-- Per-index effect of the temp-import loop: an entry whose name matches no
missing package is untouched, and an entry named by a missing package ends
with exactly the module imported for that package from the temp directory. -/
theorem importMissing_ok_entry (env : Env) (d : String) :
    ∀ (miss : List Package), (miss.map Package.name).Nodup →
    ∀ (pkgs pkgs2 : List Package) (σ σ2 : Trace),
    importMissing env d pkgs miss σ = .ok pkgs2 σ2 →
    ∀ (i : Nat) (hi : i < pkgs.length) (hi2 : i < pkgs2.length),
    ((∀ q ∈ miss, ¬ q.name = pkgs[i].name) → pkgs2[i] = pkgs[i]) ∧
    (∀ q ∈ miss, q.name = pkgs[i].name →
      ∃ m, env.importRelative d q.packageWithPath = .ok m ∧
        pkgs2[i] = { pkgs[i] with imported := some m }) := by
  intro miss
  induction miss with
  | nil =>
    intro _ pkgs pkgs2 σ σ2 h i hi hi2
    simp only [importMissing] at h
    cases h
    exact ⟨fun _ => rfl, fun q hq => absurd hq (List.not_mem_nil q)⟩
  | cons q0 rest ih =>
    intro hnd pkgs pkgs2 σ σ2 h i hi hi2
    cases him : env.importRelative d q0.packageWithPath with
    | error msg => simp [importMissing, him] at h
    | ok m0 =>
      simp only [importMissing, him] at h
      have hndr : (rest.map Package.name).Nodup := by
        simp only [List.map_cons, List.nodup_cons] at hnd
        exact hnd.2
      have hq0r : q0.name ∉ rest.map Package.name := by
        simp only [List.map_cons, List.nodup_cons] at hnd
        exact hnd.1
      have hlen : i < (updateImported pkgs q0.name m0).length := by
        rw [updateImported_length]
        exact hi
      have hstep := updateImported_get pkgs q0.name m0 i hi hlen
      have hih := ih hndr (updateImported pkgs q0.name m0) pkgs2 _ σ2 h i hlen hi2
      constructor
      · intro hno
        have hcond : ¬ pkgs[i].name = q0.name :=
          fun heq => hno q0 (by simp) heq.symm
        rw [if_neg hcond] at hstep
        have hres := hih.1 ?_
        · rw [hres, hstep]
        · intro q hq hqe
          rw [hstep] at hqe
          exact hno q (by simp [hq]) hqe
      · intro q hq hqe
        rcases List.mem_cons.mp hq with hq0eq | hqr
        · have hcond : pkgs[i].name = q0.name := by rw [← hqe, hq0eq]
          rw [if_pos hcond] at hstep
          refine ⟨m0, hq0eq.symm ▸ him, ?_⟩
          have hno : ∀ q2 ∈ rest, ¬ q2.name = (updateImported pkgs q0.name m0)[i].name := by
            intro q2 hq2 heq
            rw [hstep] at heq
            have hupd : ({ pkgs[i] with imported := some m0 } : Package).name =
                pkgs[i].name := rfl
            rw [hupd] at heq
            have heq2 : q2.name = q0.name := heq.trans hcond
            exact hq0r (heq2 ▸ List.mem_map_of_mem Package.name hq2)
          have hres := hih.1 hno
          rw [hres, hstep]
        · have hq0ne : ¬ q0.name = q.name := by
            intro heq
            exact hq0r (heq.symm ▸ List.mem_map_of_mem Package.name hqr)
          have hcond : ¬ pkgs[i].name = q0.name :=
            fun heq => hq0ne (hqe.trans heq).symm
          rw [if_neg hcond] at hstep
          obtain ⟨m, hm, hout⟩ := hih.2 q hqr (by rw [hstep]; exact hqe)
          exact ⟨m, hm, by rw [hout, hstep]⟩

/-- C4: shape, order and per-position content of the result.  An ok array
call returns an array with exactly one module entry per input specifier, in
input order: position i holds the module imported for specifier i — its
local probe result when it was locally available, and otherwise its import
from the one shared temp install directory via name-plus-subpath.  An ok
single-specifier call returns the one module object that the corresponding
one-element array call returns as its sole element; and when every probed
specifier is locally available the returned array is exactly the locally
imported module of each input specifier, in input order. -/
theorem npxImport_result_shape (env : Env) (σ : Trace) :
    (∀ l r σ1, npxImport env (.many l) σ = .ok r σ1 →
      ∃ ms d, r = .many ms ∧ ms.length = l.length ∧
        ∀ (i : Nat) (hi : i < l.length) (hi2 : i < ms.length),
          ms[i] = Option.or (env.tryImportLocal (specProbe env l[i]))
            (env.importRelative d (specProbe env l[i])).toOption) ∧
    (∀ s r σ1, npxImport env (.single s) σ = .ok r σ1 →
      ∃ m, r = .one m ∧ npxImport env (.many [s]) σ = .ok (.many [m]) σ1) ∧
    (∀ l r σ1, (∀ q ∈ l, (env.tryImportLocal (specProbe env q)).isSome = true) →
      npxImport env (.many l) σ = .ok r σ1 →
      r = .many (l.map fun q => env.tryImportLocal (specProbe env q))) := by
  refine ⟨?_, ?_, ?_⟩
  · intro l r σ1 h
    cases hcl : checkPackagesLoop env [] l σ with
    | err e t => simp [npxImport, argList, hcl] at h
    | ok pkgs t =>
      simp only [npxImport, argList, hcl] at h
      obtain ⟨hp, -⟩ := checkLoop_ok_shape env _ _ _ _ _ hcl
      have hpkgs : pkgs = l.map (mkPkg env) := by simpa using hp
      have hnd : (pkgs.map Package.name).Nodup :=
        checkLoop_ok_nodup env l [] σ pkgs t hcl (by simp)
      by_cases hm : ((pkgs.filter fun p => p.imported.isNone).length > 0)
      · rw [if_pos hm] at h
        cases hip : installPhase env pkgs (pkgs.filter fun p => p.imported.isNone)
            (pkgs.filter fun p => p.imported.isSome)
            (addEvent t (.log (missingMsg (pkgs.filter fun p => p.imported.isNone)))) with
        | err e t3 => simp [hip] at h
        | ok finalPkgs t3 =>
          simp only [hip] at h
          cases h
          cases hnv2 : checkNpxVersion env
              (addEvent t (.log (missingMsg (pkgs.filter fun p => p.imported.isNone)))) with
          | err e t1 => simp [installPhase, hnv2] at hip
          | ok u t1 =>
            simp only [installPhase, hnv2] at hip
            cases hia : installAndReturnDir env
                (pkgs.filter fun p => p.imported.isNone) t1 with
            | err e t2 => simp [hia] at hip
            | ok d t2 =>
              simp only [hia] at hip
              cases him2 : importMissing env d pkgs
                  (pkgs.filter fun p => p.imported.isNone) t2 with
              | err e t3b => simp [him2] at hip
              | ok pkgs2 t3b =>
                simp only [him2] at hip
                cases hip
                refine ⟨_, d, rfl, ?_, ?_⟩
                · have hl2 := importMissing_ok_length env d _ pkgs _ t2 _ him2
                  simp [hl2, hpkgs]
                · intro i hi hi2
                  have hpl : i < pkgs.length := by
                    rw [hpkgs]
                    simpa using hi
                  have hp2l : i < finalPkgs.length := by
                    rw [importMissing_ok_length env d _ pkgs _ t2 _ him2]
                    exact hpl
                  have hmsi : (finalPkgs.map (fun p => p.imported))[i] =
                      finalPkgs[i].imported := by
                    simp
                  have hmissN : ((pkgs.filter fun p => p.imported.isNone).map
                      Package.name).Nodup :=
                    hnd.sublist ((List.filter_sublist pkgs).map Package.name)
                  have hentry := importMissing_ok_entry env d _ hmissN pkgs finalPkgs t2 t3b
                    him2 i hpl hp2l
                  have hpi : pkgs[i] = mkPkg env l[i] := by simp [hpkgs]
                  cases himp : env.tryImportLocal (specProbe env l[i]) with
                  | some m =>
                    have hnomatch : ∀ q ∈ (pkgs.filter fun p => p.imported.isNone),
                        ¬ q.name = pkgs[i].name := by
                      intro q hq he
                      have hqP : q ∈ pkgs := List.mem_of_mem_filter hq
                      have hqN : q.imported.isNone = true :=
                        @List.of_mem_filter _ (fun p => p.imported.isNone) q _ hq
                      have hinj := List.inj_on_of_nodup_map hnd
                      have hiP : pkgs[i] ∈ pkgs := List.getElem_mem hpl
                      have hqe2 : q = pkgs[i] := hinj hqP hiP he
                      rw [hqe2, hpi] at hqN
                      simp only [mkPkg] at hqN
                      rw [himp] at hqN
                      simp at hqN
                    have hfix := hentry.1 hnomatch
                    rw [hmsi, hfix, hpi]
                    show (mkPkg env l[i]).imported = _
                    simp only [mkPkg]
                    rw [himp]
                    rfl
                  | none =>
                    have hmem : pkgs[i] ∈ (pkgs.filter fun p => p.imported.isNone) := by
                      rw [List.mem_filter]
                      refine ⟨List.getElem_mem hpl, ?_⟩
                      rw [hpi]
                      simp only [mkPkg]
                      rw [himp]
                      rfl
                    obtain ⟨m, hmim, hout⟩ := hentry.2 pkgs[i] hmem rfl
                    have hmim2 : env.importRelative d (specProbe env l[i]) = .ok m := by
                      rw [hpi] at hmim
                      simp only [mkPkg] at hmim
                      exact hmim
                    rw [hmsi, hout]
                    show some m = _
                    rw [hmim2]
                    rfl
      · rw [if_neg hm] at h
        cases h
        refine ⟨_, "", rfl, by simp [hpkgs], ?_⟩
        intro i hi hi2
        have hpl : i < pkgs.length := by
          rw [hpkgs]
          simpa using hi
        have hfe : (pkgs.filter fun p => p.imported.isNone) = [] := by
          cases hfil : (pkgs.filter fun p => p.imported.isNone) with
          | nil => rfl
          | cons a b =>
            rw [hfil] at hm
            simp at hm
        have hpi : pkgs[i] = mkPkg env l[i] := by simp [hpkgs]
        have hiN : ¬ ((pkgs[i]).imported.isNone = true) :=
          List.filter_eq_nil_iff.mp hfe pkgs[i] (List.getElem_mem hpl)
        have hmsi : (pkgs.map (fun p => p.imported))[i] = pkgs[i].imported := by simp
        cases himp : env.tryImportLocal (specProbe env l[i]) with
        | none =>
          exfalso
          apply hiN
          rw [hpi]
          simp only [mkPkg]
          rw [himp]
          rfl
        | some m =>
          rw [hmsi, hpi]
          show (mkPkg env l[i]).imported = _
          simp only [mkPkg]
          rw [himp]
          rfl
  · intro s r σ1 h
    cases hcl : checkPackagesLoop env [] [s] σ with
    | err e t => simp [npxImport, argList, hcl] at h
    | ok pkgs t =>
      simp only [npxImport, argList, hcl] at h ⊢
      obtain ⟨hp, -⟩ := checkLoop_ok_shape env _ _ _ _ _ hcl
      have hpkgs : pkgs = [mkPkg env s] := by simpa [argList] using hp
      by_cases hm : ((pkgs.filter fun p => p.imported.isNone).length > 0)
      · rw [if_pos hm] at h ⊢
        cases hip : installPhase env pkgs (pkgs.filter fun p => p.imported.isNone)
            (pkgs.filter fun p => p.imported.isSome)
            (addEvent t (.log (missingMsg (pkgs.filter fun p => p.imported.isNone)))) with
        | err e t3 => simp [hip] at h
        | ok finalPkgs t3 =>
          simp only [hip] at h ⊢
          cases h
          have hlen := installPhase_ok_length env _ _ _ _ _ _ hip
          rw [hpkgs] at hlen
          match finalPkgs, hlen with
          | [fp], _ => exact ⟨fp.imported, rfl, rfl⟩
      · rw [if_neg hm] at h ⊢
        cases h
        rw [hpkgs]
        exact ⟨(mkPkg env s).imported, rfl, rfl⟩
  · intro l r σ1 hall h
    cases hcl : checkPackagesLoop env [] l σ with
    | err e t => simp [npxImport, argList, hcl] at h
    | ok pkgs t =>
      simp only [npxImport, argList, hcl] at h
      obtain ⟨hp, -⟩ := checkLoop_ok_shape env _ _ _ _ _ hcl
      have hpkgs : pkgs = l.map (mkPkg env) := by simpa [argList] using hp
      have hmiss : ((pkgs.filter fun p => p.imported.isNone)) = [] := by
        rw [List.filter_eq_nil_iff]
        intro a ha
        rw [hpkgs] at ha
        obtain ⟨q, hq, rfl⟩ := List.mem_map.mp ha
        have := hall q hq
        simp only [mkPkg, Option.isNone_iff_eq_none]
        intro hnone
        rw [hnone] at this
        simp at this
      rw [hmiss] at h
      simp only [List.length_nil, gt_iff_lt, lt_self_iff_false, if_false] at h
      cases h
      simp [wrapResult, hpkgs, mkPkg, Function.comp]

theorem npxImport_result_shape_witness :
    npxImport demoEnvLocal (.many ["a", "b"]) { cache := [], events := [] } =
      .ok (.many [some 1, some 1]) { cache := [], events := [.probe "a", .probe "b"] } ∧
    (∀ q ∈ ["a", "b"],
      (demoEnvLocal.tryImportLocal (specProbe demoEnvLocal q)).isSome = true) ∧
    ImportResult.many [some 1, some 1] =
      .many (["a", "b"].map fun q => demoEnvLocal.tryImportLocal (specProbe demoEnvLocal q)) := by
  refine ⟨by rfl, by decide, ?_⟩
  exact (npxImport_result_shape demoEnvLocal { cache := [], events := [] }).2.2
    ["a", "b"] (.many [some 1, some 1]) { cache := [], events := [.probe "a", .probe "b"] }
    (by decide) (by rfl)

theorem find?_first {α : Type} (p : α → Bool) :
    ∀ (l : List α) (x : α), l.find? p = some x →
    ∃ i : Fin l.length, l.get i = x ∧ p x = true ∧
      ∀ j : Fin l.length, j.1 < i.1 → p (l.get j) = false := by
  intro l
  induction l with
  | nil => intro x h; simp at h
  | cons a t ih =>
    intro x h
    cases hpa : p a with
    | true =>
      rw [List.find?_cons_of_pos t hpa] at h
      cases h
      exact ⟨⟨0, by simp⟩, rfl, hpa, fun j hj => absurd hj (by simp)⟩
    | false =>
      rw [List.find?_cons_of_neg t (by simp [hpa])] at h
      obtain ⟨i, hget, hx, hfirst⟩ := ih x h
      refine ⟨⟨i.1 + 1, by simpa using i.2⟩, by simpa using hget, hx, ?_⟩
      intro j hj
      match j, hj with
      | ⟨0, _⟩, _ => simpa using hpa
      | ⟨k + 1, hk⟩, hj =>
        have : k < i.1 := by simp at hj; omega
        simpa using hfirst ⟨k, by simpa using hk⟩ this

theorem strIntercalate_mem_contains (sep : String) :
    ∀ (l : List String) (x : String), x ∈ l →
    ∃ a b : String, strIntercalate sep l = a ++ x ++ b := by
  intro l
  induction l with
  | nil => intro x h; simp at h
  | cons hd t ih =>
    intro x hmem
    cases t with
    | nil =>
      simp at hmem
      exact ⟨"", "", by simp [strIntercalate, hmem, String.empty_append, String.append_empty]⟩
    | cons hd2 t2 =>
      rcases List.mem_cons.mp hmem with heq | hmem2
      · exact ⟨"", sep ++ strIntercalate sep (hd2 :: t2), by
          simp [strIntercalate, heq, String.empty_append, String.append_assoc]⟩
      · obtain ⟨a, b, hab⟩ := ih x hmem2
        exact ⟨hd ++ sep ++ a, b, by
          simp [strIntercalate, hab, String.append_assoc]⟩

/-- C3: after the batch install command succeeds, the emitted search-path
string is split on the path-list separator; if no resulting segment
contains the temp-cache pattern the call fails with TempDirNotFound
carrying exactly the candidate list, and its message contains the JSON
rendering of every candidate segment; otherwise the segment the call
continues with (whose parent becomes the result or the subject of the
layout failure) is the first matching segment — it matches the pattern and
no earlier segment does. -/
theorem installAndReturnDir_tempdir (env : Env) (packages : List Package) (σ : Trace)
    (r : ExecResult)
    (hexec : env.exec (fullInstallCmd packages) = .ok r)
    (hok : r.failed = false) :
    ((∀ s ∈ strSplitOnChar ':' r.stdout, containsSub s npxPat = false) →
      installAndReturnDir env packages σ =
        .err (.tempDirNotFound (strSplitOnChar ':' r.stdout))
          (addEvent (addEvent σ (.log ("Installing... (" ++ installCmdOf packages ++ ")")))
            (.exec (fullInstallCmd packages))) ∧
      ∀ s ∈ strSplitOnChar ':' r.stdout,
        strContains (NpxError.tempDirNotFound (strSplitOnChar ':' r.stdout)).message
          (jsonStr s)) ∧
    (∀ seg, (strSplitOnChar ':' r.stdout).find? (fun p => containsSub p npxPat) = some seg →
      (∃ i : Fin (strSplitOnChar ':' r.stdout).length,
        (strSplitOnChar ':' r.stdout).get i = seg ∧ containsSub seg npxPat = true ∧
        ∀ j : Fin (strSplitOnChar ':' r.stdout).length, j.1 < i.1 →
          containsSub ((strSplitOnChar ':' r.stdout).get j) npxPat = false) ∧
      ((∃ σ2, installAndReturnDir env packages σ = .ok (parentDir seg) σ2) ∨
       (∃ σ2, installAndReturnDir env packages σ =
          .err (.unexpectedInstallLayout seg) σ2))) := by
  constructor
  · intro hnone
    have hfind : (strSplitOnChar ':' r.stdout).find? (fun p => containsSub p npxPat) = none :=
      List.find?_eq_none.mpr (fun x hx => by simp [hnone x hx])
    constructor
    · simp only [installAndReturnDir, hexec, hok, Bool.false_eq_true, if_false, hfind]
    · intro s hs
      have hmem : jsonStr s ∈ (strSplitOnChar ':' r.stdout).map jsonStr :=
        List.mem_map_of_mem _ hs
      obtain ⟨a, b, hab⟩ := strIntercalate_mem_contains "," _ _ hmem
      refine ⟨"Failed to find temporary install directory. Looking for paths matching \x27/.npm/_npx/\x27 in:\n" ++
        ("[" ++ a), b ++ "]", ?_⟩
      simp [NpxError.message, jsonArr, hab, String.append_assoc]
  · intro seg hfind
    refine ⟨find?_first _ _ _ hfind, ?_⟩
    cases hnm : strEndsWith (parentDir seg) "node_modules" with
    | true =>
      left
      refine ⟨addEvent (addEvent (addEvent (addEvent σ
          (.log ("Installing... (" ++ installCmdOf packages ++ ")")))
          (.exec (fullInstallCmd packages)))
          (.log ("Installed into " ++ parentDir seg ++ ".")))
          (.log ("To skip this step in future, run: " ++ installInstructions env packages)), ?_⟩
      simp only [installAndReturnDir, hexec, hok, Bool.false_eq_true, if_false, hfind,
        hnm, Bool.not_true]
    | false =>
      right
      refine ⟨addEvent (addEvent σ
          (.log ("Installing... (" ++ installCmdOf packages ++ ")")))
          (.exec (fullInstallCmd packages)), ?_⟩
      simp only [installAndReturnDir, hexec, hok, Bool.false_eq_true, if_false, hfind,
        hnm, Bool.not_false, if_true]

/-- Concrete environment whose install command emits a PATH with no
temp-cache segment. -/
def demoEnvNoTemp : Env :=
  { validate := fun _ => .valid, tryImportLocal := fun _ => none,
    exec := fun _ => .ok { failed := false, stdout := "/usr/bin:/bin" },
    importRelative := fun _ _ => .ok 7,
    resolveLocal := fun s => s, resolveRelative := fun d s => d ++ "/" ++ s,
    userAgent := none, execPath := none, mainModulePath := none }

/-- A sample missing-package record. -/
def pkgB : Package :=
  { name := "pkg-b", packageWithPath := "pkg-b", version := "latest", path := "",
    imported := none, isLocal := false }

theorem installAndReturnDir_tempdir_witness :
    (demoEnvNoTemp.exec (fullInstallCmd [pkgB]) =
      .ok { failed := false, stdout := "/usr/bin:/bin" }) ∧
    (∀ s ∈ strSplitOnChar ':' "/usr/bin:/bin", containsSub s npxPat = false) ∧
    (installAndReturnDir demoEnvNoTemp [pkgB] { cache := [], events := [] } =
      .err (.tempDirNotFound (strSplitOnChar ':' "/usr/bin:/bin"))
        (addEvent (addEvent { cache := [], events := [] }
          (.log ("Installing... (" ++ installCmdOf [pkgB] ++ ")")))
          (.exec (fullInstallCmd [pkgB]))) ∧
      ∀ s ∈ strSplitOnChar ':' "/usr/bin:/bin",
        strContains (NpxError.tempDirNotFound (strSplitOnChar ':' "/usr/bin:/bin")).message
          (jsonStr s)) := by
  refine ⟨by rfl, by decide, ?_⟩
  exact (installAndReturnDir_tempdir demoEnvNoTemp [pkgB] { cache := [], events := [] }
    { failed := false, stdout := "/usr/bin:/bin" } (by rfl) (by rfl)).1 (by decide)

/-- Last path component of a directory string. -/
def lastComponent (p : String) : String := (strSplitOnChar '/' p).getLastD ""

/-- Concrete environment whose emitted temp segment has a parent directory
that merely ends with the characters "node_modules" without that being its
last path component. -/
def demoEnvOddLayout : Env :=
  { validate := fun _ => .valid, tryImportLocal := fun _ => none,
    exec := fun _ => .ok { failed := false, stdout := "/u/.npm/_npx/h/xnode_modules/.bin" },
    importRelative := fun _ _ => .ok 7,
    resolveLocal := fun s => s, resolveRelative := fun d s => d ++ "/" ++ s,
    userAgent := none, execPath := none, mainModulePath := none }

/-- C7 counterexample: the discovered segment's parent directory is
"/u/.npm/_npx/h/xnode_modules", whose last path component is
"xnode_modules", not "node_modules" — yet the call succeeds and returns it
instead of failing with UnexpectedInstallLayout, because the code only
checks a string suffix. -/
theorem installAndReturnDir_layout_cex :
    (∃ σ2, installAndReturnDir demoEnvOddLayout [pkgB] { cache := [], events := [] } =
      .ok "/u/.npm/_npx/h/xnode_modules" σ2) ∧
    lastComponent "/u/.npm/_npx/h/xnode_modules" ≠ "node_modules" := by
  exact ⟨⟨_, rfl⟩, by decide⟩

/-- C7 (amended): when the install command succeeds and a temp-cache
segment is discovered, the call continues with that segment's parent
directory, and the contract check on it is a string-suffix test for
"node_modules" (not a path-component test): if the parent ends with that
string the call returns the parent, otherwise it fails with
UnexpectedInstallLayout. -/
theorem installAndReturnDir_layout (env : Env) (packages : List Package) (σ : Trace)
    (r : ExecResult) (seg : String)
    (hexec : env.exec (fullInstallCmd packages) = .ok r)
    (hok : r.failed = false)
    (hfind : (strSplitOnChar ':' r.stdout).find? (fun p => containsSub p npxPat) = some seg) :
    (strEndsWith (parentDir seg) "node_modules" = true →
      ∃ σ2, installAndReturnDir env packages σ = .ok (parentDir seg) σ2) ∧
    (strEndsWith (parentDir seg) "node_modules" = false →
      ∃ σ2, installAndReturnDir env packages σ = .err (.unexpectedInstallLayout seg) σ2) := by
  constructor
  · intro hnm
    refine ⟨addEvent (addEvent (addEvent (addEvent σ
        (.log ("Installing... (" ++ installCmdOf packages ++ ")")))
        (.exec (fullInstallCmd packages)))
        (.log ("Installed into " ++ parentDir seg ++ ".")))
        (.log ("To skip this step in future, run: " ++ installInstructions env packages)), ?_⟩
    simp only [installAndReturnDir, hexec, hok, Bool.false_eq_true, if_false, hfind,
      hnm, Bool.not_true]
  · intro hnm
    refine ⟨addEvent (addEvent σ
        (.log ("Installing... (" ++ installCmdOf packages ++ ")")))
        (.exec (fullInstallCmd packages)), ?_⟩
    simp only [installAndReturnDir, hexec, hok, Bool.false_eq_true, if_false, hfind,
      hnm, Bool.not_false, if_true]

/-- Concrete environment whose emitted temp segment has a well-formed
node_modules parent. -/
def demoEnvTemp : Env :=
  { validate := fun _ => .valid, tryImportLocal := fun _ => none,
    exec := fun c =>
      if c = versionCmd then .ok { failed := false, stdout := "8.1.2" }
      else .ok { failed := false, stdout := "/usr/bin:/u/.npm/_npx/h/node_modules/.bin" },
    importRelative := fun _ _ => .ok 7,
    resolveLocal := fun s => s, resolveRelative := fun d s => d ++ "/" ++ s,
    userAgent := none, execPath := none, mainModulePath := none }

theorem installAndReturnDir_layout_witness :
    (demoEnvTemp.exec (fullInstallCmd [pkgB]) =
      .ok { failed := false, stdout := "/usr/bin:/u/.npm/_npx/h/node_modules/.bin" }) ∧
    ((strSplitOnChar ':' "/usr/bin:/u/.npm/_npx/h/node_modules/.bin").find?
      (fun p => containsSub p npxPat) = some "/u/.npm/_npx/h/node_modules/.bin") ∧
    strEndsWith (parentDir "/u/.npm/_npx/h/node_modules/.bin") "node_modules" = true ∧
    (∃ σ2, installAndReturnDir demoEnvTemp [pkgB] { cache := [], events := [] } =
      .ok (parentDir "/u/.npm/_npx/h/node_modules/.bin") σ2) := by
  refine ⟨by rfl, by rfl, by rfl, ?_⟩
  exact (installAndReturnDir_layout demoEnvTemp [pkgB] { cache := [], events := [] }
    { failed := false, stdout := "/usr/bin:/u/.npm/_npx/h/node_modules/.bin" }
    "/u/.npm/_npx/h/node_modules/.bin" (by rfl) (by rfl) (by rfl)).1 (by rfl)

/-- The probed-missing set of a call: the Package records the probing loop
builds whose local import failed. -/
def missingOf (env : Env) (arg : PkgArg) : List Package :=
  ((argList arg).map (mkPkg env)).filter (fun p => p.imported.isNone)

/-- The locally available Package records of a call. -/
def localsOf (env : Env) (arg : PkgArg) : List Package :=
  ((argList arg).map (mkPkg env)).filter (fun p => p.imported.isSome)

/-- The state after the probing loop of a call has run. -/
def probeTrace (env : Env) (arg : PkgArg) (σ : Trace) : Trace :=
  { σ with events := σ.events ++ probeEvents env (argList arg) }

/-- C5: whenever npxImport throws an error that is not a validation-phase
error, that error is the single composite wrapper built in the catch block
around this very call's install phase: the missing set it names is exactly
the call's probed-missing packages (nonempty), the inner message is exactly
the message of the error its own install phase threw, and the wrapper's
message contains that inner message, the name of every missing package, and
the ready-to-paste permanent-install command line; no result value
accompanies it. -/
theorem npxImport_composite_failure (env : Env) (arg : PkgArg) (σ σ1 : Trace) (e : NpxError)
    (hrun : npxImport env arg σ = .err e σ1)
    (hnv : fromValidation e = false) :
    ∃ e0, missingOf env arg ≠ [] ∧
      installPhase env ((argList arg).map (mkPkg env)) (missingOf env arg)
        (localsOf env arg)
        (addEvent (probeTrace env arg σ) (.log (missingMsg (missingOf env arg)))) =
        .err e0 σ1 ∧
      e = .orchestrationFailed ((missingOf env arg).map fun p => p.packageWithPath)
            e0.message ((missingOf env arg).map fun p => p.name)
            (installInstructions env (missingOf env arg)) ∧
      strContains e.message e0.message ∧
      (∀ p ∈ missingOf env arg, strContains e.message p.name) ∧
      strContains e.message (installInstructions env (missingOf env arg)) := by
  cases hcl : checkPackagesLoop env [] (argList arg) σ with
  | err e0 t =>
    simp only [npxImport, hcl] at hrun
    cases hrun
    exact absurd (checkLoop_err_validation env (argList arg) [] σ _ _ hcl) (by simp [hnv])
  | ok pkgs t =>
    obtain ⟨hp, ht⟩ := checkLoop_ok_shape env (argList arg) [] σ pkgs t hcl
    have hpkgs : pkgs = (argList arg).map (mkPkg env) := by simpa using hp
    subst hpkgs
    subst ht
    simp only [npxImport, hcl] at hrun
    by_cases hm : ((((argList arg).map (mkPkg env)).filter
        fun p => p.imported.isNone).length > 0)
    · rw [if_pos hm] at hrun
      cases hip : installPhase env ((argList arg).map (mkPkg env))
          (((argList arg).map (mkPkg env)).filter fun p => p.imported.isNone)
          (((argList arg).map (mkPkg env)).filter fun p => p.imported.isSome)
          (addEvent { σ with events := σ.events ++ probeEvents env (argList arg) }
            (.log (missingMsg (((argList arg).map (mkPkg env)).filter
              fun p => p.imported.isNone)))) with
      | ok finalPkgs t3 => simp [hip] at hrun
      | err e0 t3 =>
        simp only [hip] at hrun
        cases hrun
        refine ⟨e0, List.length_pos.mp hm, hip, rfl, ?_, ?_, ?_⟩
        · refine ⟨"npx-import failed for " ++
            strIntercalate "," ((missingOf env arg).map
              fun p => p.packageWithPath) ++ " with message:\n    ",
            "\n\n" ++ "You should install " ++
            strIntercalate ", " ((missingOf env arg).map
              fun p => p.name) ++ " locally: \n    " ++
            installInstructions env (missingOf env arg) ++ "\n\n", ?_⟩
          simp [NpxError.message, missingOf, String.append_assoc]
        · intro p hp2
          obtain ⟨a, b, hab⟩ := strIntercalate_mem_contains ", " _ _
            (List.mem_map_of_mem (fun p : Package => p.name) hp2)
          refine ⟨"npx-import failed for " ++
            strIntercalate "," ((missingOf env arg).map
              fun p => p.packageWithPath) ++ " with message:\n    " ++
            e0.message ++ "\n\n" ++ "You should install " ++ a,
            b ++ " locally: \n    " ++
            installInstructions env (missingOf env arg) ++ "\n\n", ?_⟩
          simp only [NpxError.message, missingOf] at hab ⊢
          simp [hab, String.append_assoc]
        · refine ⟨"npx-import failed for " ++
            strIntercalate "," ((missingOf env arg).map
              fun p => p.packageWithPath) ++ " with message:\n    " ++
            e0.message ++ "\n\n" ++ "You should install " ++
            strIntercalate ", " ((missingOf env arg).map
              fun p => p.name) ++ " locally: \n    ",
            "\n\n", ?_⟩
          simp [NpxError.message, missingOf, String.append_assoc]
    · rw [if_neg hm] at hrun
      simp at hrun

/-- Concrete environment in which nothing is local and the version query
reports failure. -/
def demoEnvNoNpx : Env :=
  { validate := fun _ => .valid, tryImportLocal := fun _ => none,
    exec := fun _ => .ok { failed := true, stdout := "" },
    importRelative := fun _ _ => .error "x",
    resolveLocal := fun s => s, resolveRelative := fun d s => d ++ "/" ++ s,
    userAgent := none, execPath := none, mainModulePath := none }

/-- The composite error the demo no-npx call throws. -/
def demoCompositeErr : NpxError :=
  .orchestrationFailed ["broken-install"]
    "Couldn\x27t execute npx --version. Is npm installed and up-to-date?"
    ["broken-install"] "npm install --save-dev broken-install@latest"

/-- The final state of the demo no-npx call. -/
def demoCompositeTrace : Trace :=
  { cache := [],
    events := [.probe "broken-install",
      .log "broken-install not available locally. Attempting to use npx to install temporarily.",
      .exec "npx --version"] }

theorem npxImport_composite_failure_witness :
    (npxImport demoEnvNoNpx (.single "broken-install") { cache := [], events := [] } =
      .err demoCompositeErr demoCompositeTrace) ∧
    fromValidation demoCompositeErr = false ∧
    ∃ e0, missingOf demoEnvNoNpx (.single "broken-install") ≠ [] ∧
      installPhase demoEnvNoNpx
        ((argList (.single "broken-install")).map (mkPkg demoEnvNoNpx))
        (missingOf demoEnvNoNpx (.single "broken-install"))
        (localsOf demoEnvNoNpx (.single "broken-install"))
        (addEvent (probeTrace demoEnvNoNpx (.single "broken-install")
            { cache := [], events := [] })
          (.log (missingMsg (missingOf demoEnvNoNpx (.single "broken-install"))))) =
        .err e0 demoCompositeTrace ∧
      demoCompositeErr = .orchestrationFailed
        ((missingOf demoEnvNoNpx (.single "broken-install")).map fun p => p.packageWithPath)
        e0.message
        ((missingOf demoEnvNoNpx (.single "broken-install")).map fun p => p.name)
        (installInstructions demoEnvNoNpx (missingOf demoEnvNoNpx (.single "broken-install"))) ∧
      strContains demoCompositeErr.message e0.message ∧
      (∀ p ∈ missingOf demoEnvNoNpx (.single "broken-install"),
        strContains demoCompositeErr.message p.name) ∧
      strContains demoCompositeErr.message
        (installInstructions demoEnvNoNpx (missingOf demoEnvNoNpx (.single "broken-install"))) := by
  refine ⟨by rfl, by rfl, ?_⟩
  exact npxImport_composite_failure demoEnvNoNpx (.single "broken-install")
    { cache := [], events := [] } demoCompositeTrace demoCompositeErr (by rfl) (by rfl)

/-- Concatenation of a list of strings. -/
def strConcat : List String → String
  | [] => ""
  | a :: rest => a ++ strConcat rest

theorem execCmds_append (a b : List Event) :
    execCmds (a ++ b) = execCmds a ++ execCmds b := by
  simp [execCmds]

theorem checkNpxVersion_ok_of {env : Env} {rv : ExecResult} (σ : Trace)
    (hv : env.exec versionCmd = .ok rv) (hvf : rv.failed = false)
    (hvv : semverGte rv.stdout "8.0.0" = true) :
    checkNpxVersion env σ = .ok () (addEvent σ (.exec versionCmd)) := by
  simp [checkNpxVersion, hv, hvf, hvv]

theorem installAndReturnDir_execCmds (env : Env) (packages : List Package) (σ : Trace) :
    execCmds (finalTrace (installAndReturnDir env packages σ)).events =
      execCmds σ.events ++ [fullInstallCmd packages] := by
  unfold installAndReturnDir
  cases hx : env.exec (fullInstallCmd packages) with
  | error msg => simp [finalTrace, addEvent, execCmds_append, execCmds]
  | ok r =>
    cases hf : r.failed with
    | true => simp [hf, finalTrace, addEvent, execCmds_append, execCmds]
    | false =>
      simp only [hf, Bool.false_eq_true, if_false]
      cases hfind : (strSplitOnChar ':' r.stdout).find? (fun p => containsSub p npxPat) with
      | none => simp [finalTrace, addEvent, execCmds_append, execCmds]
      | some seg =>
        cases hnm : strEndsWith (parentDir seg) "node_modules" with
        | true =>
          simp [hnm, finalTrace, addEvent, execCmds_append, execCmds]
        | false =>
          simp [hnm, finalTrace, addEvent, execCmds_append, execCmds]

theorem importMissing_execCmds (env : Env) (d : String) (miss : List Package) :
    ∀ (pkgs : List Package) (σ : Trace),
    execCmds (finalTrace (importMissing env d pkgs miss σ)).events =
      execCmds σ.events := by
  induction miss with
  | nil => intro pkgs σ; simp [importMissing, finalTrace]
  | cons p rest ih =>
    intro pkgs σ
    cases him : env.importRelative d p.packageWithPath with
    | error msg => simp [importMissing, him, finalTrace, addEvent, execCmds_append, execCmds]
    | ok m =>
      simp only [importMissing, him]
      rw [ih]
      simp [addEvent, execCmds_append, execCmds]

theorem execCmds_addEvent_exec (σ : Trace) (c : String) :
    execCmds (addEvent σ (.exec c)).events = execCmds σ.events ++ [c] := by
  simp [addEvent, execCmds]

theorem execCmds_addEvent_log (σ : Trace) (m : String) :
    execCmds (addEvent σ (.log m)).events = execCmds σ.events := by
  simp [addEvent, execCmds]

theorem installPhase_eq_of_npx_ok {env : Env} {σ σ1 : Trace}
    (h : checkNpxVersion env σ = .ok () σ1) (pkgs missing locals : List Package) :
    installPhase env pkgs missing locals σ =
      match installAndReturnDir env missing σ1 with
      | .err e σ2 => .err e σ2
      | .ok d σ2 =>
        match importMissing env d pkgs missing σ2 with
        | .err e σ3 => .err e σ3
        | .ok pkgs2 σ3 => .ok pkgs2 (writeLocalCache locals σ3) := by
  unfold installPhase
  rw [h]

theorem installPhase_execCmds (env : Env) (pkgs missing locals : List Package) (σ : Trace)
    (rv : ExecResult) (hv : env.exec versionCmd = .ok rv) (hvf : rv.failed = false)
    (hvv : semverGte rv.stdout "8.0.0" = true) :
    execCmds (finalTrace (installPhase env pkgs missing locals σ)).events =
      execCmds σ.events ++ [versionCmd, fullInstallCmd missing] := by
  rw [installPhase_eq_of_npx_ok (checkNpxVersion_ok_of σ hv hvf hvv) pkgs missing locals]
  cases hia : installAndReturnDir env missing (addEvent σ (.exec versionCmd)) with
  | err e t2 =>
    have hd := installAndReturnDir_execCmds env missing (addEvent σ (.exec versionCmd))
    rw [hia] at hd
    simp only [finalTrace] at hd
    rw [execCmds_addEvent_exec] at hd
    show execCmds t2.events = execCmds σ.events ++ [versionCmd, fullInstallCmd missing]
    rw [hd]
    simp
  | ok d t2 =>
    have hd := installAndReturnDir_execCmds env missing (addEvent σ (.exec versionCmd))
    rw [hia] at hd
    simp only [finalTrace] at hd
    rw [execCmds_addEvent_exec] at hd
    show execCmds (finalTrace (match importMissing env d pkgs missing t2 with
      | .err e σ3 => (.err e σ3 : StepResult (List Package))
      | .ok pkgs2 σ3 => .ok pkgs2 (writeLocalCache locals σ3))).events =
      execCmds σ.events ++ [versionCmd, fullInstallCmd missing]
    cases him : importMissing env d pkgs missing t2 with
    | err e t3 =>
      have hm := importMissing_execCmds env d missing pkgs t2
      rw [him] at hm
      simp only [finalTrace] at hm
      show execCmds t3.events = execCmds σ.events ++ [versionCmd, fullInstallCmd missing]
      rw [hm, hd]
      simp
    | ok pkgs2 t3 =>
      have hm := importMissing_execCmds env d missing pkgs t2
      rw [him] at hm
      simp only [finalTrace] at hm
      show execCmds t3.events = execCmds σ.events ++ [versionCmd, fullInstallCmd missing]
      rw [hm, hd]
      simp

theorem execCmds_probeEvents (env : Env) (l : List String) :
    execCmds (probeEvents env l) = [] := by
  induction l with
  | nil => simp [probeEvents, execCmds]
  | cons q rest ih => simpa [probeEvents, execCmds] using ih

theorem npxImport_trace_missing (env : Env) (arg : PkgArg) (σ σ1 : Trace)
    (pkgs : List Package)
    (hcl : checkPackagesLoop env [] (argList arg) σ = .ok pkgs σ1)
    (hm : (pkgs.filter fun p => p.imported.isNone).length > 0) :
    finalTrace (npxImport env arg σ) =
      finalTrace (installPhase env pkgs (pkgs.filter fun p => p.imported.isNone)
        (pkgs.filter fun p => p.imported.isSome)
        (addEvent σ1 (.log (missingMsg (pkgs.filter fun p => p.imported.isNone))))) := by
  simp only [npxImport, hcl]
  rw [if_pos hm]
  cases hip : installPhase env pkgs (pkgs.filter fun p => p.imported.isNone)
      (pkgs.filter fun p => p.imported.isSome)
      (addEvent σ1 (.log (missingMsg (pkgs.filter fun p => p.imported.isNone)))) with
  | ok f t => rfl
  | err e t => rfl

theorem strIntercalate_sep_eq (f : Package → String) :
    ∀ (a : Package) (l : List Package),
    strIntercalate " " ((a :: l).map f) = f a ++ strConcat (l.map fun x => " " ++ f x) := by
  intro a l
  induction l generalizing a with
  | nil => simp [strIntercalate, strConcat, String.append_empty]
  | cons b r ih =>
    show strIntercalate " " (f a :: (b :: r).map f) = _
    have : strIntercalate " " (f a :: (b :: r).map f) =
        f a ++ " " ++ strIntercalate " " ((b :: r).map f) := by
      simp [strIntercalate]
    rw [this, ih b]
    simp [strConcat, String.append_assoc]

/-- C6: for any call whose probed-missing set is nonempty, with the version
gate passing, the executed child-process commands of the whole call are
exactly the version query followed by one batch install invocation covering
exactly the missing packages; that invocation is `npx -y` followed by one
` -p spec` per missing package in input order, chained with the
path-emitting command; and each spec is `name@version`, wrapped in single
quotes exactly when it contains one of the characters `<`, `>` or `*`. -/
theorem npxImport_single_install (env : Env) (σ : Trace) (l : List String)
    (rv : ExecResult)
    (hvalid : ∀ q ∈ l, specOk env q = true)
    (hnodup : (l.map (specName env)).Nodup)
    (hne : ((l.map (mkPkg env)).filter fun p => p.imported.isNone) ≠ [])
    (hv : env.exec versionCmd = .ok rv) (hvf : rv.failed = false)
    (hvv : semverGte rv.stdout "8.0.0" = true) :
    execCmds (finalTrace (npxImport env (.many l) σ)).events =
      execCmds σ.events ++ [versionCmd,
        fullInstallCmd ((l.map (mkPkg env)).filter fun p => p.imported.isNone)] ∧
    fullInstallCmd ((l.map (mkPkg env)).filter fun p => p.imported.isNone) =
      "npx -y" ++ strConcat (((l.map (mkPkg env)).filter fun p => p.imported.isNone).map
        fun p => " -p " ++ formatForCLI p) ++ " " ++ emitPathCmd ∧
    ∀ p : Package,
      ((∃ c ∈ (p.name ++ "@" ++ p.version).data, c = '<' ∨ c = '>' ∨ c = '*') →
        formatForCLI p = "\x27" ++ (p.name ++ "@" ++ p.version) ++ "\x27") ∧
      ((∀ c ∈ (p.name ++ "@" ++ p.version).data, ¬(c = '<' ∨ c = '>' ∨ c = '*')) →
        formatForCLI p = p.name ++ "@" ++ p.version) := by
  have hcl := checkLoop_ok_of_valid env l [] σ hvalid (by simpa using hnodup)
  have hcl' : checkPackagesLoop env [] l σ =
      .ok (l.map (mkPkg env)) { σ with events := σ.events ++ probeEvents env l } := by
    simpa using hcl
  have hlen : (((l.map (mkPkg env)).filter fun p => p.imported.isNone).length > 0) :=
    List.length_pos.mpr hne
  refine ⟨?_, ?_, ?_⟩
  · rw [npxImport_trace_missing env (.many l) σ _ _ hcl' hlen,
      installPhase_execCmds env _ _ _ _ rv hv hvf hvv,
      execCmds_addEvent_log]
    show execCmds (σ.events ++ probeEvents env l) ++ _ = _
    rw [execCmds_append, execCmds_probeEvents env l]
    simp
  · cases hfil : ((l.map (mkPkg env)).filter fun p => p.imported.isNone) with
    | nil => exact absurd hfil hne
    | cons q rest =>
      have hfun : (fun x : Package => " " ++ ("-p " ++ formatForCLI x)) =
          (fun p : Package => " -p " ++ formatForCLI p) := by
        funext x
        rw [← String.append_assoc]
        rfl
      show "npx -y " ++
          strIntercalate " " ((q :: rest).map fun p => "-p " ++ formatForCLI p) ++
          " " ++ emitPathCmd = _
      rw [strIntercalate_sep_eq (fun p => "-p " ++ formatForCLI p) q rest]
      show "npx -y " ++ ("-p " ++ formatForCLI q ++
        strConcat (rest.map fun x => " " ++ ("-p " ++ formatForCLI x))) ++
        " " ++ emitPathCmd = _
      rw [hfun]
      show _ = "npx -y" ++ (" -p " ++ formatForCLI q ++
        strConcat (rest.map fun p => " -p " ++ formatForCLI p)) ++
        " " ++ emitPathCmd
      rw [show (" -p " : String) = " " ++ "-p " from rfl,
        show ("npx -y " : String) = "npx -y" ++ " " from rfl]
      simp only [String.append_assoc]
  · intro p
    constructor
    · rintro ⟨c, hc, hor⟩
      have hspec : hasCliSpecial (p.name ++ "@" ++ p.version) = true := by
        rw [hasCliSpecial, List.any_eq_true]
        refine ⟨c, hc, ?_⟩
        rcases hor with h | h | h <;> simp [h]
      simp [formatForCLI, hspec]
    · intro hno
      have hspec : hasCliSpecial (p.name ++ "@" ++ p.version) = false := by
        rw [hasCliSpecial, List.any_eq_false]
        intro c hc
        have := hno c hc
        simp only [Bool.or_eq_true, decide_eq_true_eq]
        tauto
      simp [formatForCLI, hspec]

theorem npxImport_single_install_witness :
    (∀ q ∈ ["pkg-a", "pkg-b"], specOk demoEnvTemp q = true) ∧
    ((["pkg-a", "pkg-b"].map (specName demoEnvTemp)).Nodup) ∧
    ((["pkg-a", "pkg-b"].map (mkPkg demoEnvTemp)).filter fun p => p.imported.isNone) ≠ [] ∧
    (demoEnvTemp.exec versionCmd = .ok { failed := false, stdout := "8.1.2" }) ∧
    semverGte "8.1.2" "8.0.0" = true ∧
    execCmds (finalTrace (npxImport demoEnvTemp (.many ["pkg-a", "pkg-b"])
        { cache := [], events := [] })).events =
      execCmds ({ cache := [], events := [] } : Trace).events ++
        [versionCmd, fullInstallCmd ((["pkg-a", "pkg-b"].map (mkPkg demoEnvTemp)).filter
          fun p => p.imported.isNone)] := by
  refine ⟨by decide, by decide, by decide, by rfl, by rfl, ?_⟩
  exact (npxImport_single_install demoEnvTemp { cache := [], events := [] }
    ["pkg-a", "pkg-b"] { failed := false, stdout := "8.1.2" } (by decide) (by decide)
    (by decide) (by rfl) (by rfl) (by rfl)).1

theorem takeWhileNot_clean (stop : List Char) :
    ∀ (a b : List Char), (∀ c ∈ a, c ∉ stop) →
    takeWhileNot stop (a ++ b) =
      (a ++ (takeWhileNot stop b).1, (takeWhileNot stop b).2) := by
  intro a
  induction a with
  | nil => intro b _; simp
  | cons c cs ih =>
    intro b h
    have hc : c ∉ stop := h c (by simp)
    simp only [List.cons_append, takeWhileNot, if_neg hc, List.append_eq]
    rw [ih b (fun x hx => h x (by simp [hx]))]

theorem takeWhileNot_stopped (stop : List Char) (b : List Char)
    (hb : b = [] ∨ ∃ c t, b = c :: t ∧ c ∈ stop) :
    takeWhileNot stop b = ([], b) := by
  rcases hb with rfl | ⟨c, t, rfl, hc⟩
  · rfl
  · simp [takeWhileNot, hc]

theorem string_eta (s : String) : String.mk s.data = s := rfl

/-- Modelled from the spec: composing a bare (non-scoped) name with an
optional version-or-tag and an optional subpath parses back into its
components — the version never enters the name or the subpath. -/
theorem parsePkg_build (name v path : String)
    (hn0 : name.data ≠ []) (hnc : ∀ c ∈ name.data, c ≠ '@' ∧ c ≠ '/')
    (hv0 : v.data ≠ []) (hvc : ∀ c ∈ v.data, c ≠ '/')
    (hpa : path.data = [] ∨ ∃ t, path.data = '/' :: t) :
    parsePkg (name ++ "@" ++ v ++ path) = some (name, v, path) ∧
    parsePkg (name ++ path) = some (name, "latest", path) := by
  obtain ⟨c, cs, hcs⟩ : ∃ c cs, name.data = c :: cs := by
    cases hd : name.data with
    | nil => exact absurd hd hn0
    | cons c cs => exact ⟨c, cs, rfl⟩
  have hcat : c ≠ '@' ∧ c ≠ '/' := hnc c (by simp [hcs])
  have hnstop : ∀ x ∈ name.data, x ∉ (['@', '/'] : List Char) := by
    intro x hx
    have := hnc x hx
    simp [this]
  have hvstop : ∀ x ∈ v.data, x ∉ (['/'] : List Char) := by
    intro x hx
    have := hvc x hx
    simp [this]
  have hpstop : takeWhileNot ['@', '/'] path.data = ([], path.data) := by
    apply takeWhileNot_stopped
    rcases hpa with h | ⟨t, h⟩
    · exact Or.inl h
    · exact Or.inr ⟨'/', t, h, by simp⟩
  have hpstop2 : takeWhileNot ['/'] path.data = ([], path.data) := by
    apply takeWhileNot_stopped
    rcases hpa with h | ⟨t, h⟩
    · exact Or.inl h
    · exact Or.inr ⟨'/', t, h, by simp⟩
  constructor
  · have hdata : (name ++ "@" ++ v ++ path).data =
        name.data ++ ('@' :: (v.data ++ path.data)) := by
      simp [String.data_append]
    rw [parsePkg]
    rw [hdata, hcs]
    simp only [List.cons_append]
    rw [if_neg hcat.1]
    rw [show (c :: (cs ++ '@' :: (v.data ++ path.data))) =
      (c :: cs) ++ '@' :: (v.data ++ path.data) from rfl]
    rw [← hcs]
    rw [takeWhileNot_clean (['@', '/'] : List Char) name.data _ hnstop]
    rw [takeWhileNot_stopped (['@', '/'] : List Char) ('@' :: (v.data ++ path.data))
      (Or.inr ⟨'@', _, rfl, by simp⟩)]
    simp only [List.append_nil, string_eta]
    rw [if_neg hn0]
    simp only [parseTail, reduceIte]
    rw [takeWhileNot_clean (['/'] : List Char) v.data path.data hvstop, hpstop2]
    simp only [List.append_nil, string_eta]
    rw [if_neg hv0]
    rw [if_neg (show ¬('@' : Char) = '/' by decide)]
  · have hdata : (name ++ path).data = name.data ++ path.data := by
      simp [String.data_append]
    rw [parsePkg]
    rw [hdata, hcs]
    simp only [List.cons_append]
    rw [if_neg hcat.1]
    rw [show (c :: (cs ++ path.data)) = (c :: cs) ++ path.data from rfl]
    rw [← hcs]
    rw [takeWhileNot_clean (['@', '/'] : List Char) name.data _ hnstop, hpstop]
    simp only [List.append_nil, string_eta]
    rw [if_neg hn0]
    rcases hpa with h | ⟨t, h⟩
    · rw [h]
      have hpath : path = "" := by
        cases path with
        | mk d => cases h; rfl
      rw [hpath]
      rfl
    · rw [h]
      simp only [parseTail, reduceIte]
      rw [← h, string_eta]

theorem npxImport_single_local (env : Env) (σ : Trace) (s n vv pa : String) (m : JsModule)
    (hpv : parseAndValidateE env s = .ok (n, vv, pa))
    (hm : env.tryImportLocal (n ++ pa) = some m) :
    npxImport env (.single s) σ =
      .ok (.one (some m)) { σ with events := σ.events ++ [.probe (n ++ pa)] } := by
  have hcl : checkPackagesLoop env [] [s] σ =
      .ok [{ name := n, packageWithPath := n ++ pa, version := vv, path := pa,
             imported := some m, isLocal := true }]
        (addEvent σ (.probe (n ++ pa))) := by
    simp [checkPackagesLoop, hpv, hm]
  simp only [npxImport, argList, hcl]
  simp [wrapResult, addEvent]

/-- C8: the version/tag component of a specifier only selects what to
install, never what to probe or import: `name@v path` and `name path` parse
to the same name and subpath, build identical Package records except for
the version field — so local probing is identical whether or not the
package is available — the probe-and-import string is name-plus-subpath
with the version stripped, every import of that specifier's package from a
temp install directory is invoked with exactly that version-stripped
string, and when the package is locally available the two runs are
literally identical. -/
theorem npxImport_version_irrelevant (env : Env) (σ : Trace) (name v path : String)
    (hn0 : name.data ≠ []) (hnc : ∀ c ∈ name.data, c ≠ '@' ∧ c ≠ '/')
    (hhd : name.data.head? ≠ some '.')
    (hv0 : v.data ≠ []) (hvc : ∀ c ∈ v.data, c ≠ '/')
    (hpa : path.data = [] ∨ ∃ t, path.data = '/' :: t)
    (hval : env.validate name = .valid) :
    parsePkg (name ++ "@" ++ v ++ path) = some (name, v, path) ∧
    parsePkg (name ++ path) = some (name, "latest", path) ∧
    mkPkg env (name ++ "@" ++ v ++ path) = { mkPkg env (name ++ path) with version := v } ∧
    (mkPkg env (name ++ "@" ++ v ++ path)).packageWithPath = name ++ path ∧
    (∀ (dir : String) (pkgs0 : List Package) (σ0 : Trace),
      (finalTrace (importMissing env dir pkgs0
        [mkPkg env (name ++ "@" ++ v ++ path)] σ0)).events =
        σ0.events ++ [.importRel dir (name ++ path)]) ∧
    ((env.tryImportLocal (name ++ path)).isSome = true →
      npxImport env (.single (name ++ "@" ++ v ++ path)) σ =
        npxImport env (.single (name ++ path)) σ) := by
  obtain ⟨hp1, hp2⟩ := parsePkg_build name v path hn0 hnc hv0 hvc hpa
  obtain ⟨c, cs, hcs⟩ : ∃ c cs, name.data = c :: cs := by
    cases hd : name.data with
    | nil => exact absurd hd hn0
    | cons c cs => exact ⟨c, cs, rfl⟩
  have hcc : c ≠ '.' := by
    intro h
    exact hhd (by rw [hcs, h]; rfl)
  have hcsl : c ≠ '/' := (hnc c (by simp [hcs])).2
  have hsd1 : startsDotSlash (name ++ "@" ++ v ++ path) = false := by
    unfold startsDotSlash
    rw [show (name ++ "@" ++ v ++ path).data =
      name.data ++ ('@' :: (v.data ++ path.data)) from by simp [String.data_append], hcs]
    simp [hcc, hcsl]
  have hsd2 : startsDotSlash (name ++ path) = false := by
    unfold startsDotSlash
    rw [show (name ++ path).data = name.data ++ path.data from by
      simp [String.data_append], hcs]
    simp [hcc, hcsl]
  have hpv1 : parseAndValidateE env (name ++ "@" ++ v ++ path) = .ok (name, v, path) := by
    unfold parseAndValidateE
    rw [hsd1]
    simp [hp1, hval]
  have hpv2 : parseAndValidateE env (name ++ path) = .ok (name, "latest", path) := by
    unfold parseAndValidateE
    rw [hsd2]
    simp [hp2, hval]
  have hsp1 : specParts env (name ++ "@" ++ v ++ path) = (name, v, path) := by
    simp [specParts, hpv1]
  have hsp2 : specParts env (name ++ path) = (name, "latest", path) := by
    simp [specParts, hpv2]
  refine ⟨hp1, hp2, ?_, ?_, ?_, ?_⟩
  · rw [mkPkg_eq hsp1, mkPkg_eq hsp2]
  · rw [mkPkg_eq hsp1]
  · intro dir pkgs0 σ0
    rw [mkPkg_eq hsp1]
    cases him : env.importRelative dir (name ++ path) with
    | error msg =>
      simp [importMissing, him, finalTrace, addEvent]
    | ok m =>
      simp [importMissing, him, finalTrace, addEvent]
  · intro hloc
    obtain ⟨m, hm⟩ := Option.isSome_iff_exists.mp hloc
    rw [npxImport_single_local env σ _ name v path m hpv1 hm,
      npxImport_single_local env σ _ name "latest" path m hpv2 hm]

theorem npxImport_version_irrelevant_witness :
    ("pkg".data ≠ []) ∧
    (∀ c ∈ "pkg".data, c ≠ '@' ∧ c ≠ '/') ∧
    ("pkg".data.head? ≠ some '.') ∧
    ("1.2.3".data ≠ []) ∧
    (∀ c ∈ "1.2.3".data, c ≠ '/') ∧
    (demoEnvLocal.validate "pkg" = .valid) ∧
    (parsePkg ("pkg" ++ "@" ++ "1.2.3" ++ "/lib/x.js") =
        some ("pkg", "1.2.3", "/lib/x.js") ∧
      parsePkg ("pkg" ++ "/lib/x.js") = some ("pkg", "latest", "/lib/x.js") ∧
      mkPkg demoEnvLocal ("pkg" ++ "@" ++ "1.2.3" ++ "/lib/x.js") =
        { mkPkg demoEnvLocal ("pkg" ++ "/lib/x.js") with version := "1.2.3" } ∧
      (mkPkg demoEnvLocal ("pkg" ++ "@" ++ "1.2.3" ++ "/lib/x.js")).packageWithPath =
        "pkg" ++ "/lib/x.js" ∧
      (∀ (dir : String) (pkgs0 : List Package) (σ0 : Trace),
        (finalTrace (importMissing demoEnvLocal dir pkgs0
          [mkPkg demoEnvLocal ("pkg" ++ "@" ++ "1.2.3" ++ "/lib/x.js")] σ0)).events =
          σ0.events ++ [.importRel dir ("pkg" ++ "/lib/x.js")]) ∧
      ((demoEnvLocal.tryImportLocal ("pkg" ++ "/lib/x.js")).isSome = true →
        npxImport demoEnvLocal (.single ("pkg" ++ "@" ++ "1.2.3" ++ "/lib/x.js"))
            { cache := [], events := [] } =
          npxImport demoEnvLocal (.single ("pkg" ++ "/lib/x.js"))
            { cache := [], events := [] })) := by
  refine ⟨by decide, by decide, by decide, by decide, by decide, by rfl, ?_⟩
  exact npxImport_version_irrelevant demoEnvLocal { cache := [], events := [] }
    "pkg" "1.2.3" "/lib/x.js" (by decide) (by decide) (by decide) (by decide) (by decide)
    (Or.inr ⟨"lib/x.js".data, rfl⟩) (by rfl)

theorem takeWhileNot_spec (stop : List Char) :
    ∀ (l a b : List Char), takeWhileNot stop l = (a, b) →
    (∀ c ∈ a, c ∉ stop) ∧ (b = [] ∨ ∃ c t, b = c :: t ∧ c ∈ stop) ∧ l = a ++ b := by
  intro l
  induction l with
  | nil =>
    intro a b h
    rw [takeWhileNot] at h
    cases h
    exact ⟨by simp, Or.inl rfl, rfl⟩
  | cons c cs ih =>
    intro a b h
    by_cases hc : c ∈ stop
    · rw [takeWhileNot, if_pos hc] at h
      cases h
      exact ⟨by simp, Or.inr ⟨c, cs, rfl, hc⟩, by simp⟩
    · simp only [takeWhileNot, if_neg hc] at h
      rcases hr : takeWhileNot stop cs with ⟨a2, b2⟩
      rw [hr] at h
      cases h
      obtain ⟨h1, h2, h3⟩ := ih a2 b2 hr
      refine ⟨?_, h2, by simp [h3]⟩
      intro x hx
      rcases List.mem_cons.mp hx with rfl | hx2
      · exact hc
      · exact h1 x hx2

theorem parseTail_name {nm : String} {rest : List Char} {n v pa : String}
    (h : parseTail nm rest = some (n, v, pa)) : n = nm := by
  cases rest with
  | nil =>
    rw [parseTail] at h
    cases h
    rfl
  | cons c cs =>
    rw [parseTail] at h
    by_cases hc : c = '/'
    · rw [if_pos hc] at h
      cases h
      rfl
    · rw [if_neg hc] at h
      by_cases hc2 : c = '@'
      · rw [if_pos hc2] at h
        by_cases he : (takeWhileNot ['/'] cs).1 = []
        · rw [if_pos he] at h; exact absurd h (by simp)
        · rw [if_neg he] at h
          cases h
          rfl
      · rw [if_neg hc2] at h
        exact absurd h (by simp)

theorem parseAndValidateE_parsePkg {env : Env} {q n v pa : String}
    (h : parseAndValidateE env q = .ok (n, v, pa)) : parsePkg q = some (n, v, pa) := by
  unfold parseAndValidateE at h
  split at h
  · exact absurd h (by simp)
  · cases hp : parsePkg q with
    | none => rw [hp] at h; exact absurd h (by simp)
    | some t =>
      rcases t with ⟨n2, v2, pa2⟩
      simp only [hp] at h
      cases hv2 : env.validate n2 with
      | valid =>
        simp only [hv2] at h
        simp at h
        obtain ⟨rfl, rfl, rfl⟩ := h
        rfl
      | coreModule => simp only [hv2] at h; exact absurd h (by simp)
      | invalidName => simp only [hv2] at h; exact absurd h (by simp)

theorem parsePkg_bare_name (n1 : List Char) (hne : n1 ≠ [])
    (hfree : ∀ c ∈ n1, c ∉ (['@', '/'] : List Char)) :
    parsePkg (String.mk n1) = some (String.mk n1, "latest", "") := by
  cases n1 with
  | nil => exact absurd rfl hne
  | cons c cs =>
    have hc : c ≠ '@' := by
      have := hfree c (by simp)
      simp at this
      exact this.1
    have htw : takeWhileNot ['@', '/'] (c :: cs) = (c :: cs, []) := by
      have := takeWhileNot_clean ['@', '/'] (c :: cs) [] hfree
      simpa [takeWhileNot] using this
    simp only [parsePkg, htw]
    rw [if_neg hc]
    rw [if_neg (show ¬(c :: cs) = [] by simp)]
    rfl

theorem parsePkg_scoped_name (s1 q1 : List Char) (hs1 : s1 ≠ []) (hq1 : q1 ≠ [])
    (hsfree : ∀ c ∈ s1, c ∉ (['/'] : List Char))
    (hqfree : ∀ c ∈ q1, c ∉ (['@', '/'] : List Char)) :
    parsePkg ("@" ++ String.mk s1 ++ "/" ++ String.mk q1) =
      some ("@" ++ String.mk s1 ++ "/" ++ String.mk q1, "latest", "") := by
  have hdata : ("@" ++ String.mk s1 ++ "/" ++ String.mk q1).data =
      '@' :: (s1 ++ '/' :: q1) := by
    simp [String.data_append]
  have h1 : takeWhileNot ['/'] (s1 ++ '/' :: q1) = (s1, '/' :: q1) := by
    rw [takeWhileNot_clean _ s1 _ hsfree,
      takeWhileNot_stopped _ _ (Or.inr ⟨'/', q1, rfl, by simp⟩)]
    simp
  have h2 : takeWhileNot ['@', '/'] q1 = (q1, []) := by
    have := takeWhileNot_clean ['@', '/'] q1 [] hqfree
    simpa [takeWhileNot] using this
  simp only [parsePkg, hdata, h1, h2, reduceIte]
  rw [if_neg hs1, if_neg hq1]
  rfl

theorem parsePkg_name_roundtrip {q n v pa : String} (h : parsePkg q = some (n, v, pa)) :
    parsePkg n = some (n, "latest", "") := by
  cases hd : q.data with
  | nil => simp [parsePkg, hd] at h
  | cons c cs =>
    simp only [parsePkg, hd] at h
    by_cases hc : c = '@'
    · rw [if_pos hc] at h
      rcases hs : takeWhileNot ['/'] cs with ⟨s1, s2⟩
      simp only [hs] at h
      obtain ⟨hsfree, -, -⟩ := takeWhileNot_spec ['/'] cs s1 s2 hs
      by_cases h1 : s1 = []
      · rw [if_pos h1] at h; exact absurd h (by simp)
      · rw [if_neg h1] at h
        cases hs2 : s2 with
        | nil => rw [hs2] at h; exact absurd h (by simp)
        | cons d cs2 =>
          rw [hs2] at h
          simp only [] at h
          by_cases hd2 : d = '/'
          · rw [if_pos hd2] at h
            rcases hq : takeWhileNot ['@', '/'] cs2 with ⟨q1, q2⟩
            simp only [hq] at h
            obtain ⟨hqfree, -, -⟩ := takeWhileNot_spec ['@', '/'] cs2 q1 q2 hq
            by_cases hq1 : q1 = []
            · rw [if_pos hq1] at h; exact absurd h (by simp)
            · rw [if_neg hq1] at h
              have hn := parseTail_name h
              rw [hn]
              exact parsePkg_scoped_name s1 q1 h1 hq1 hsfree hqfree
          · rw [if_neg hd2] at h; exact absurd h (by simp)
    · rw [if_neg hc] at h
      rcases hn : takeWhileNot ['@', '/'] (c :: cs) with ⟨n1, n2⟩
      simp only [hn] at h
      obtain ⟨hnfree, -, -⟩ := takeWhileNot_spec ['@', '/'] (c :: cs) n1 n2 hn
      by_cases h1 : n1 = []
      · rw [if_pos h1] at h; exact absurd h (by simp)
      · rw [if_neg h1] at h
        have hname := parseTail_name h
        rw [hname]
        exact parsePkg_bare_name n1 h1 hnfree

theorem cacheInsert_fresh (k : String) (val : CacheEntry) :
    ∀ (cc : List (String × CacheEntry)), cacheLookup cc k = none →
    cacheInsert cc k val = cc ++ [(k, val)] := by
  intro cc
  induction cc with
  | nil => intro _; rfl
  | cons kv rest ih =>
    intro h
    rcases kv with ⟨k2, v2⟩
    rw [cacheLookup] at h
    by_cases hk : k2 = k
    · rw [if_pos hk] at h; exact absurd h (by simp)
    · rw [if_neg hk] at h
      rw [cacheInsert, if_neg hk, ih h]
      simp

theorem cacheLookup_append (k : String) :
    ∀ (a b : List (String × CacheEntry)),
    cacheLookup (a ++ b) k =
      match cacheLookup a k with
      | some v => some v
      | none => cacheLookup b k := by
  intro a
  induction a with
  | nil => intro b; rfl
  | cons kv rest ih =>
    intro b
    rcases kv with ⟨k2, v2⟩
    by_cases hk : k2 = k
    · simp [cacheLookup, if_pos hk]
    · simp only [List.cons_append, cacheLookup, if_neg hk]
      exact ih b

theorem foldl_cacheInsert_fresh (d : String) :
    ∀ (mpre : List Package) (cc : List (String × CacheEntry)),
    (∀ p ∈ mpre, cacheLookup cc p.name = none) →
    (mpre.map Package.name).Nodup →
    mpre.foldl (fun c p => cacheInsert c p.name (.installedAt d)) cc =
      cc ++ mpre.map (fun p => (p.name, CacheEntry.installedAt d)) := by
  intro mpre
  induction mpre with
  | nil => intro cc _ _; simp
  | cons p rest ih =>
    intro cc hfresh hnodup
    have hnd2 : (rest.map Package.name).Nodup := by
      simp only [List.map_cons, List.nodup_cons] at hnodup
      exact hnodup.2
    have hfr : ∀ q ∈ rest,
        cacheLookup (cc ++ [(p.name, CacheEntry.installedAt d)]) q.name = none := by
      intro q hq
      rw [cacheLookup_append]
      rw [hfresh q (by simp [hq])]
      have hne : p.name ≠ q.name := by
        simp only [List.map_cons, List.nodup_cons] at hnodup
        intro heq
        exact hnodup.1 (heq ▸ List.mem_map_of_mem Package.name hq)
      simp [cacheLookup, hne]
    rw [List.foldl_cons, cacheInsert_fresh p.name _ cc (hfresh p (by simp)),
      ih (cc ++ [(p.name, CacheEntry.installedAt d)]) hfr hnd2]
    simp

theorem cacheLookup_map_mem (f : Package → CacheEntry) :
    ∀ (l : List Package) (q : Package), q ∈ l → (l.map Package.name).Nodup →
    cacheLookup (l.map fun p => (p.name, f p)) q.name = some (f q) := by
  intro l
  induction l with
  | nil => intro q hq _; simp at hq
  | cons p rest ih =>
    intro q hq hnodup
    rcases List.mem_cons.mp hq with rfl | hq2
    · simp [cacheLookup]
    · have hne : p.name ≠ q.name := by
        simp only [List.map_cons, List.nodup_cons] at hnodup
        intro heq
        exact hnodup.1 (heq ▸ List.mem_map_of_mem Package.name hq2)
      simp only [List.map_cons, cacheLookup, if_neg hne]
      exact ih q hq2 (by simpa using hnodup.of_cons)

theorem cacheLookup_map_notmem (f : Package → CacheEntry) (x : String) :
    ∀ (l : List Package), x ∉ l.map Package.name →
    cacheLookup (l.map fun p => (p.name, f p)) x = none := by
  intro l
  induction l with
  | nil => intro _; rfl
  | cons p rest ih =>
    intro hx
    simp only [List.map_cons, List.mem_cons, not_or] at hx
    simp only [List.map_cons, cacheLookup,
      if_neg (show ¬p.name = x from fun h => hx.1 h.symm)]
    exact ih hx.2

theorem importMissing_fail (env : Env) (d : String) (mfail : Package)
    (mpost : List Package) (msg : String) :
    ∀ (mpre pkgs : List Package) (σ : Trace),
    (∀ p ∈ mpre, ∃ mm, env.importRelative d p.packageWithPath = .ok mm) →
    env.importRelative d mfail.packageWithPath = .error msg →
    importMissing env d pkgs (mpre ++ mfail :: mpost) σ =
      .err (.externalFailure msg)
        { cache := mpre.foldl (fun c p => cacheInsert c p.name (.installedAt d)) σ.cache,
          events := σ.events ++ mpre.map (fun p => .importRel d p.packageWithPath) ++
            [.importRel d mfail.packageWithPath] } := by
  intro mpre
  induction mpre with
  | nil =>
    intro pkgs σ _ hfail
    simp [importMissing, hfail, addEvent]
  | cons p rest ih =>
    intro pkgs σ hok hfail
    obtain ⟨mm, hmm⟩ := hok p (by simp)
    have step1 : importMissing env d pkgs ((p :: rest) ++ mfail :: mpost) σ =
        importMissing env d (updateImported pkgs p.name mm) (rest ++ mfail :: mpost)
          { cache := cacheInsert σ.cache p.name (.installedAt d),
            events := σ.events ++ [.importRel d p.packageWithPath] } := by
      simp only [List.cons_append, importMissing, hmm, addEvent]
      rfl
    rw [step1, ih _ _ (fun x hx => hok x (by simp [hx])) hfail]
    simp [List.append_assoc]

/-- Trace reached after a successful installAndReturnDir. -/
def instOkTrace (env : Env) (packages : List Package) (σ : Trace) (d : String) : Trace :=
  addEvent (addEvent (addEvent (addEvent σ
    (.log ("Installing... (" ++ installCmdOf packages ++ ")")))
    (.exec (fullInstallCmd packages)))
    (.log ("Installed into " ++ d ++ ".")))
    (.log ("To skip this step in future, run: " ++ installInstructions env packages))

theorem installAndReturnDir_ok_eq (env : Env) (packages : List Package) (σ : Trace)
    (out : ExecResult) (seg : String)
    (hinst : env.exec (fullInstallCmd packages) = .ok out)
    (hof : out.failed = false)
    (hfind : (strSplitOnChar ':' out.stdout).find? (fun p => containsSub p npxPat) = some seg)
    (hnm : strEndsWith (parentDir seg) "node_modules" = true) :
    installAndReturnDir env packages σ =
      .ok (parentDir seg) (instOkTrace env packages σ (parentDir seg)) := by
  simp only [installAndReturnDir, hinst, hof, Bool.false_eq_true, if_false, hfind, hnm,
    Bool.not_true, instOkTrace]

theorem installPhase_fail_eq (env : Env) (pkgs locals : List Package) (σ : Trace)
    (rv out : ExecResult) (seg msg : String) (mpre : List Package) (mfail : Package)
    (mpost : List Package)
    (hv : env.exec versionCmd = .ok rv) (hvf : rv.failed = false)
    (hvv : semverGte rv.stdout "8.0.0" = true)
    (hinst : env.exec (fullInstallCmd (mpre ++ mfail :: mpost)) = .ok out)
    (hof : out.failed = false)
    (hfind : (strSplitOnChar ':' out.stdout).find? (fun p => containsSub p npxPat) = some seg)
    (hnm : strEndsWith (parentDir seg) "node_modules" = true)
    (himp : ∀ p ∈ mpre, ∃ mm, env.importRelative (parentDir seg) p.packageWithPath = .ok mm)
    (hfail : env.importRelative (parentDir seg) mfail.packageWithPath = .error msg) :
    installPhase env pkgs (mpre ++ mfail :: mpost) locals σ =
      .err (.externalFailure msg)
        { cache := mpre.foldl (fun c p => cacheInsert c p.name
            (.installedAt (parentDir seg))) σ.cache,
          events := (instOkTrace env (mpre ++ mfail :: mpost)
              (addEvent σ (.exec versionCmd)) (parentDir seg)).events ++
            mpre.map (fun p => .importRel (parentDir seg) p.packageWithPath) ++
            [.importRel (parentDir seg) mfail.packageWithPath] } := by
  rw [installPhase_eq_of_npx_ok (checkNpxVersion_ok_of σ hv hvf hvv) pkgs _ locals]
  rw [installAndReturnDir_ok_eq env (mpre ++ mfail :: mpost)
    (addEvent σ (.exec versionCmd)) out seg hinst hof hfind hnm]
  show (match importMissing env (parentDir seg) pkgs (mpre ++ mfail :: mpost)
      (instOkTrace env (mpre ++ mfail :: mpost) (addEvent σ (.exec versionCmd))
        (parentDir seg)) with
    | StepResult.err e σ3 => (StepResult.err e σ3 : StepResult (List Package))
    | StepResult.ok pkgs2 σ3 => StepResult.ok pkgs2 (writeLocalCache locals σ3)) = _
  rw [importMissing_fail env (parentDir seg) mfail mpost msg mpre pkgs _ himp hfail]
  rfl

theorem npxResolve_installedAt (cache : List (String × CacheEntry)) (env : Env)
    (n d : String) (hparse : parsePkg n = some (n, "latest", ""))
    (hlook : cacheLookup cache n = some (.installedAt d)) (hd : ¬ d = "") :
    npxResolve cache env n = .ok (env.resolveRelative d n) := by
  unfold npxResolve
  simp only [hparse, hlook]
  rw [if_neg hd, String.append_empty]

/-- C9: the resolution-cache update is not atomic with respect to a failed
npxImport call: entries for missing packages are written one at a time as
each is imported from the temp directory, before any entry for the local
packages; when the import of a later missing package fails, the call
throws the composite error with the cache already holding an entry for
every earlier missing package and none for the local packages or the
failed one, and a subsequent npxResolve succeeds for each such earlier
package, resolving relative to the temp directory. -/
theorem npxImport_cache_not_atomic (env : Env) (σ : Trace) (l : List String)
    (rv out : ExecResult) (seg msg : String) (mpre : List Package) (mfail : Package)
    (mpost : List Package)
    (hvalid : ∀ q ∈ l, specOk env q = true)
    (hnodup : (l.map (specName env)).Nodup)
    (hfresh : ∀ q ∈ l, cacheLookup σ.cache (specName env q) = none)
    (hv : env.exec versionCmd = .ok rv) (hvf : rv.failed = false)
    (hvv : semverGte rv.stdout "8.0.0" = true)
    (hsplit : (l.map (mkPkg env)).filter (fun p => p.imported.isNone) =
      mpre ++ mfail :: mpost)
    (hinst : env.exec (fullInstallCmd (mpre ++ mfail :: mpost)) = .ok out)
    (hof : out.failed = false)
    (hfind : (strSplitOnChar ':' out.stdout).find? (fun p => containsSub p npxPat) = some seg)
    (hnm : strEndsWith (parentDir seg) "node_modules" = true)
    (himp : ∀ p ∈ mpre, ∃ mm, env.importRelative (parentDir seg) p.packageWithPath = .ok mm)
    (hfail : env.importRelative (parentDir seg) mfail.packageWithPath = .error msg) :
    ∃ σ1,
      npxImport env (.many l) σ =
        .err (.orchestrationFailed ((mpre ++ mfail :: mpost).map fun p => p.packageWithPath)
          msg ((mpre ++ mfail :: mpost).map fun p => p.name)
          (installInstructions env (mpre ++ mfail :: mpost))) σ1 ∧
      σ1.cache = σ.cache ++
        mpre.map (fun p => (p.name, CacheEntry.installedAt (parentDir seg))) ∧
      (∀ p ∈ mpre, npxResolve σ1.cache env p.name =
        .ok (env.resolveRelative (parentDir seg) p.name)) ∧
      (∀ p ∈ (l.map (mkPkg env)).filter (fun p => p.imported.isSome),
        cacheLookup σ1.cache p.name = none) ∧
      cacheLookup σ1.cache mfail.name = none := by
  have hcl : checkPackagesLoop env [] l σ =
      .ok (l.map (mkPkg env)) { σ with events := σ.events ++ probeEvents env l } := by
    simpa using checkLoop_ok_of_valid env l [] σ hvalid (by simpa using hnodup)
  have hnames : (l.map (mkPkg env)).map Package.name = l.map (specName env) := by
    rw [List.map_map]
    rfl
  have hpkgN : ((l.map (mkPkg env)).map Package.name).Nodup := by
    rw [hnames]
    exact hnodup
  have hinj := List.inj_on_of_nodup_map hpkgN
  have hmissN : ((mpre ++ mfail :: mpost).map Package.name).Nodup := by
    rw [← hsplit]
    exact hpkgN.sublist ((List.filter_sublist (l.map (mkPkg env))).map Package.name)
  have hmpreN : (mpre.map Package.name).Nodup := by
    rw [List.map_append] at hmissN
    exact (List.nodup_append.mp hmissN).1
  have hdisj : (mpre.map Package.name).Disjoint ((mfail :: mpost).map Package.name) := by
    rw [List.map_append] at hmissN
    exact (List.nodup_append.mp hmissN).2.2
  have hmemPkgs : ∀ p ∈ mpre ++ mfail :: mpost, p ∈ l.map (mkPkg env) := by
    intro p hp
    rw [← hsplit] at hp
    exact List.mem_of_mem_filter hp
  have hfreshP : ∀ p ∈ l.map (mkPkg env), cacheLookup σ.cache p.name = none := by
    intro p hp
    obtain ⟨q, hq, rfl⟩ := List.mem_map.mp hp
    exact hfresh q hq
  have hdne : ¬ parentDir seg = "" := by
    intro h
    rw [h] at hnm
    exact absurd hnm (by decide)
  have hcache : mpre.foldl (fun c p => cacheInsert c p.name
        (.installedAt (parentDir seg))) σ.cache =
      σ.cache ++ mpre.map (fun p => (p.name, CacheEntry.installedAt (parentDir seg))) :=
    foldl_cacheInsert_fresh (parentDir seg) mpre σ.cache
      (fun p hp => hfreshP p (hmemPkgs p (List.mem_append_left _ hp))) hmpreN
  have hfe := installPhase_fail_eq env (l.map (mkPkg env))
    ((l.map (mkPkg env)).filter fun p => p.imported.isSome)
    (addEvent { σ with events := σ.events ++ probeEvents env l }
      (.log (missingMsg (mpre ++ mfail :: mpost))))
    rv out seg msg mpre mfail mpost hv hvf hvv hinst hof hfind hnm himp hfail
  refine ⟨Trace.mk
    (mpre.foldl (fun c p => cacheInsert c p.name (.installedAt (parentDir seg))) σ.cache)
    ((instOkTrace env (mpre ++ mfail :: mpost)
        (addEvent (addEvent { σ with events := σ.events ++ probeEvents env l }
          (.log (missingMsg (mpre ++ mfail :: mpost)))) (.exec versionCmd))
        (parentDir seg)).events ++
      mpre.map (fun p => .importRel (parentDir seg) p.packageWithPath) ++
      [.importRel (parentDir seg) mfail.packageWithPath]), ?_, hcache, ?_, ?_, ?_⟩
  · simp only [npxImport, argList, hcl]
    rw [hsplit]
    rw [if_pos (by simp : (mpre ++ mfail :: mpost).length > 0)]
    rw [hfe]
    rfl
  · intro p hp
    have hpPkgs : p ∈ l.map (mkPkg env) := hmemPkgs p (List.mem_append_left _ hp)
    obtain ⟨q, hq, heq⟩ := List.mem_map.mp hpPkgs
    rcases hsp : specParts env q with ⟨n, v, pa⟩
    have hpv := specOk_eq (hvalid q hq)
    rw [hsp] at hpv
    have hroundtrip := parsePkg_name_roundtrip (parseAndValidateE_parsePkg hpv)
    have hpn : p.name = n := by rw [← heq, mkPkg_eq hsp]
    have hlook : cacheLookup (mpre.foldl (fun c p => cacheInsert c p.name
        (.installedAt (parentDir seg))) σ.cache) p.name =
        some (.installedAt (parentDir seg)) := by
      rw [hcache, cacheLookup_append, hfreshP _ hpPkgs]
      exact cacheLookup_map_mem (fun _ => .installedAt (parentDir seg)) mpre p hp hmpreN
    show npxResolve _ env p.name = _
    rw [hpn] at hlook ⊢
    exact npxResolve_installedAt _ env n (parentDir seg) hroundtrip hlook hdne
  · intro p hp
    have hpPkgs : p ∈ l.map (mkPkg env) := List.mem_of_mem_filter hp
    have hpS : p.imported.isSome = true :=
      @List.of_mem_filter _ (fun p => p.imported.isSome) p _ hp
    show cacheLookup _ p.name = none
    rw [hcache, cacheLookup_append, hfreshP _ hpPkgs]
    refine cacheLookup_map_notmem _ _ mpre ?_
    intro hmem
    obtain ⟨p2, hp2, hpeq⟩ := List.mem_map.mp hmem
    have hp2Pkgs : p2 ∈ l.map (mkPkg env) := hmemPkgs p2 (List.mem_append_left _ hp2)
    have heq2 : p2 = p := hinj hp2Pkgs hpPkgs hpeq
    have hN : p2.imported.isNone = true :=
      @List.of_mem_filter _ (fun p => p.imported.isNone) p2 _ (by
        rw [hsplit]
        exact List.mem_append_left _ hp2)
    rw [heq2, Option.isNone_iff_eq_none] at hN
    rw [hN] at hpS
    simp at hpS
  · show cacheLookup _ mfail.name = none
    have hfPkgs : mfail ∈ l.map (mkPkg env) :=
      hmemPkgs mfail (List.mem_append_right _ (by simp))
    rw [hcache, cacheLookup_append, hfreshP _ hfPkgs]
    refine cacheLookup_map_notmem _ _ mpre ?_
    intro hmem
    exact hdisj hmem (by simp)

/-- Concrete environment where "c" is local, "a" and "b" are missing, the
install succeeds, "a" imports from the temp directory, and "b" fails. -/
def demoEnvPartial : Env :=
  { validate := fun _ => .valid,
    tryImportLocal := fun s => if s = "c" then some 1 else none,
    exec := fun c =>
      if c = versionCmd then .ok { failed := false, stdout := "8.1.2" }
      else .ok { failed := false, stdout := "/usr/bin:/u/.npm/_npx/h/node_modules/.bin" },
    importRelative := fun _ s =>
      if s = "b" then .error "No matching version found for b." else .ok 5,
    resolveLocal := fun s => s, resolveRelative := fun d s => d ++ "/" ++ s,
    userAgent := none, execPath := none, mainModulePath := none }

theorem npxImport_cache_not_atomic_witness :
    ((["c", "a", "b"].map (mkPkg demoEnvPartial)).filter (fun p => p.imported.isNone) =
      [mkPkg demoEnvPartial "a"] ++ mkPkg demoEnvPartial "b" :: []) ∧
    (∃ σ1,
      npxImport demoEnvPartial (.many ["c", "a", "b"]) { cache := [], events := [] } =
        .err (.orchestrationFailed
          (([mkPkg demoEnvPartial "a"] ++ mkPkg demoEnvPartial "b" :: []).map
            fun p => p.packageWithPath)
          "No matching version found for b."
          (([mkPkg demoEnvPartial "a"] ++ mkPkg demoEnvPartial "b" :: []).map
            fun p => p.name)
          (installInstructions demoEnvPartial
            ([mkPkg demoEnvPartial "a"] ++ mkPkg demoEnvPartial "b" :: []))) σ1 ∧
      σ1.cache = [] ++ [mkPkg demoEnvPartial "a"].map
        (fun p => (p.name, CacheEntry.installedAt
          (parentDir "/u/.npm/_npx/h/node_modules/.bin"))) ∧
      (∀ p ∈ [mkPkg demoEnvPartial "a"], npxResolve σ1.cache demoEnvPartial p.name =
        .ok (demoEnvPartial.resolveRelative
          (parentDir "/u/.npm/_npx/h/node_modules/.bin") p.name)) ∧
      (∀ p ∈ (["c", "a", "b"].map (mkPkg demoEnvPartial)).filter
          (fun p => p.imported.isSome),
        cacheLookup σ1.cache p.name = none) ∧
      cacheLookup σ1.cache (mkPkg demoEnvPartial "b").name = none) := by
  refine ⟨by rfl, ?_⟩
  exact npxImport_cache_not_atomic demoEnvPartial { cache := [], events := [] }
    ["c", "a", "b"] { failed := false, stdout := "8.1.2" }
    { failed := false, stdout := "/usr/bin:/u/.npm/_npx/h/node_modules/.bin" }
    "/u/.npm/_npx/h/node_modules/.bin" "No matching version found for b."
    [mkPkg demoEnvPartial "a"] (mkPkg demoEnvPartial "b") []
    (by decide) (by decide) (by decide) (by rfl) (by rfl) (by rfl) (by rfl)
    (by rfl) (by rfl) (by rfl) (by rfl)
    (by
      intro p hp
      rw [List.mem_singleton] at hp
      subst hp
      exact ⟨5, rfl⟩)
    (by rfl)
